import Mathlib

/-!
Verification development for the transcript-to-subtitle segmentation and
timing engine of `electron-srt-generator` (`electron/services/elevenlabs.ts`,
class `SRTProcessor`).

The engine is embedded shallowly:
* JavaScript numbers (seconds, character limits) are modelled as `ℚ`;
  `Math.floor` is `Int.floor`, and the JavaScript `%` operator (an fmod,
  truncating toward zero) is modelled by `jsMod` below.
* JavaScript strings are modelled as `String`; the primitive string
  operations the engine uses (`trim`, `split('\n')`, `join('\n')`,
  `includes`, `padStart`, the two timestamp regexes, `parseInt`) are
  modelled over the underlying `List Char`.
* Fields that the code reads defensively (`word.word || ''`,
  `word.start || 0`, `speaker_id` truthiness) are modelled as `Option`
  fields together with the corresponding defaulting/truthiness logic.
* `throw` is modelled with `Except` / `Option` results.

Imperative loops are translated to structural recursions; the index-jumping
`while` loop of `adjustTiming` is translated to a fuel-indexed recursion on
the suffix of the line list (the loop only ever inspects lines at positions
`>= i`, so the suffix determines its behaviour).
-/

/-! ### Characters and lines -/

/-- Model of a single line of text: the characters of a JavaScript string. -/
abbrev Line := List Char

/-- Whitespace characters recognised by JavaScript `trim` / `\s`
(space, tab, newline, carriage return, vertical tab, form feed). -/
def wsChar (c : Char) : Bool :=
  c == ' ' || c == '\t' || c == '\n' || c == '\r' || c == '\x0b' || c == '\x0c'

/-- JavaScript `String.prototype.trim`: drop whitespace from both ends. -/
def trimC (l : Line) : Line :=
  ((l.dropWhile wsChar).reverse.dropWhile wsChar).reverse

/-- JavaScript `str.split('\n')`. -/
def splitNl : Line → List Line
  | [] => [[]]
  | c :: t =>
    if c = '\n' then [] :: splitNl t
    else
      match splitNl t with
      | [] => [[c]]
      | h :: r => (c :: h) :: r

/-- JavaScript `arr.join('\n')`. -/
def joinNl : List Line → Line
  | [] => []
  | [l] => l
  | l :: ls => l ++ '\n' :: joinNl ls

/-- Test for the regex `/^\d+$/` (applied to an already-trimmed line). -/
def isIdxLine (l : Line) : Bool :=
  !l.isEmpty && l.all Char.isDigit

/-- Auxiliary for `hasSub`: does `p` occur as a prefix of `l`? -/
def leadsWith : Line → Line → Bool
  | [], _ => true
  | _ :: _, [] => false
  | p :: ps, c :: cs => p == c && leadsWith ps cs

/-- JavaScript `str.includes(pat)`: does `p` occur as a substring of `l`? -/
def hasSub (p : Line) : Line → Bool
  | [] => p.isEmpty
  | c :: t => leadsWith p (c :: t) || hasSub p t

/-- The characters of the `-->` separator searched for by `includes('-->')`. -/
def arrowPat : Line := ['-', '-', '>']

/-- The characters of the `" --> "` separator emitted between timestamps. -/
def arrowSep : Line := [' ', '-', '-', '>', ' ']

/-- Match the fixed-shape timestamp `\d{2}:\d{2}:\d{2},\d{3}` at the head of
a line; on success return the 12 matched characters and the rest. -/
def ts12 : Line → Option (Line × Line)
  | d1 :: d2 :: c1 :: d3 :: d4 :: c2 :: d5 :: d6 :: c3 :: d7 :: d8 :: d9 :: rest =>
    if d1.isDigit && d2.isDigit && c1 == ':' && d3.isDigit && d4.isDigit && c2 == ':'
        && d5.isDigit && d6.isDigit && c3 == ',' && d7.isDigit && d8.isDigit && d9.isDigit
    then some ([d1, d2, c1, d3, d4, c2, d5, d6, c3, d7, d8, d9], rest)
    else none
  | _ => none

/-- Drop leading regex whitespace (`\s*`). -/
def dropWs (l : Line) : Line := l.dropWhile wsChar

/-- Try the regex `(\d{2}:\d{2}:\d{2},\d{3})\s*-->\s*(\d{2}:\d{2}:\d{2},\d{3})`
anchored at the current position, returning the two captured timestamps. -/
def matchTimingAt (l : Line) : Option (Line × Line) :=
  match ts12 l with
  | none => none
  | some (t1, r1) =>
    match dropWs r1 with
    | '-' :: '-' :: '>' :: r3 =>
      match ts12 (dropWs r3) with
      | some (t2, _) => some (t1, t2)
      | none => none
    | _ => none

/-- JavaScript `line.match(/(\d{2}:\d{2}:\d{2},\d{3})\s*-->\s*(\d{2}:\d{2}:\d{2},\d{3})/)`:
first position (left to right) where the timing pattern matches. -/
def matchTiming : Line → Option (Line × Line)
  | [] => none
  | c :: t =>
    match matchTimingAt (c :: t) with
    | some r => some r
    | none => matchTiming t

/-- JavaScript `line.match(/(\d{2}:\d{2}:\d{2},\d{3})/)`: first occurrence of
the 12-character timestamp pattern. -/
def first12 : Line → Option Line
  | [] => none
  | c :: t =>
    match ts12 (c :: t) with
    | some (w, _) => some w
    | none => first12 t

/-! ### Decimal rendering and parsing of numbers -/

/-- Fuel-indexed decimal digit expansion (fuel makes the recursion
structural so that the kernel can evaluate it). -/
def natDigitsAux : Nat → Nat → Line
  | 0, _ => []
  | f + 1, n =>
    if n < 10 then [Nat.digitChar n]
    else natDigitsAux f (n / 10) ++ [Nat.digitChar (n % 10)]

/-- Decimal rendering of a natural number, as JavaScript `Number.toString()`
renders a nonnegative integral value. -/
def natDigits (n : Nat) : Line := natDigitsAux (n + 1) n

/-- Decimal rendering of an integer (JavaScript `Number.toString()` for an
integral value). -/
def intDigits (i : Int) : Line :=
  if i < 0 then '-' :: natDigits (-i).toNat else natDigits i.toNat

/-- JavaScript `str.padStart(n, '0')`. -/
def padZeros (n : Nat) (l : Line) : Line :=
  List.replicate (n - l.length) '0' ++ l

/-- Decimal value of a digit string (JavaScript `parseInt(s, 10)` on the
all-digit strings captured by the timestamp regex). -/
def parseIntD (l : Line) : Nat :=
  l.foldl (fun n c => 10 * n + (c.toNat - 48)) 0

/-! ### JavaScript numeric primitives -/

/-- Truncation toward zero, as JavaScript's `%` operator uses. -/
def jsTrunc (q : ℚ) : Int :=
  if 0 ≤ q then ⌊q⌋ else -⌊-q⌋

/-- The JavaScript `%` operator on numbers (fmod: remainder with the sign of
the dividend, `a - b * trunc(a / b)`). -/
def jsMod (a b : ℚ) : ℚ := a - b * jsTrunc (a / b)

/-! ### Data model

The input shapes mirror what `SRTProcessor.generateSRT` actually reads from
the (untyped) `transcriptionData` argument: each word's `word`, `start`,
`end` and `speaker_id` properties, and each speaker's `id` and `name`. -/

/-- One word object of `transcriptionData.words`, with exactly the fields
`generateSRT` reads. Absent properties are `none`. -/
structure TranscriptionWord where
  word : Option String
  start : Option ℚ
  «end» : Option ℚ
  speaker_id : Option String
deriving DecidableEq

/-- One speaker object of `transcriptionData.speakers`. -/
structure SpeakerInfo where
  id : String
  name : Option String
deriving DecidableEq

/-- The `SRTSubtitle` interface of `elevenlabs.ts`: `index`, `start`, `end`,
`text` and the optional resolved `speaker` display name. -/
structure SRTSubtitle where
  index : Nat
  start : ℚ
  «end» : ℚ
  text : String
  speaker : Option String
deriving DecidableEq

/-- The two properties of `transcriptionData` that `generateSRT`
destructures; `none` models an absent or non-array property. -/
structure TranscriptionData where
  words : Option (List TranscriptionWord)
  speakers : Option (List SpeakerInfo)

/-- JavaScript truthiness of a possibly-absent string (an absent value and
the empty string are falsy). -/
def truthyStr : Option String → Bool
  | none => false
  | some s => !(s == "")

namespace SRTProcessor

/-! ### Time codec (`formatTime` / `parseTime`) -/

/-- Characters of `SRTProcessor.formatTime`:
hours/minutes/seconds by flooring division and JavaScript `%`, each
`padStart`-ed with zeros, milliseconds three digits. -/
def formatTimeL (seconds : ℚ) : Line :=
  let hours := ⌊seconds / 3600⌋
  let minutes := ⌊(jsMod seconds 3600) / 60⌋
  let secs := ⌊jsMod seconds 60⌋
  let milliseconds := ⌊(jsMod seconds 1) * 1000⌋
  padZeros 2 (intDigits hours) ++ ':' :: padZeros 2 (intDigits minutes)
    ++ ':' :: padZeros 2 (intDigits secs) ++ ',' :: padZeros 3 (intDigits milliseconds)

/-- `SRTProcessor.formatTime` as a string. -/
def formatTime (seconds : ℚ) : String := String.mk (formatTimeL seconds)

/-- `SRTProcessor.parseTime`: the first `\d{2}:\d{2}:\d{2},\d{3}` match is
decomposed into hours, minutes, seconds and milliseconds; `none` models the
thrown `Invalid time format` error. -/
def parseTime (timeString : String) : Option ℚ :=
  (first12 timeString.data).map fun w =>
    match w with
    | [h1, h2, _, m1, m2, _, s1, s2, _, x1, x2, x3] =>
      (parseIntD [h1, h2] : ℚ) * 3600 + (parseIntD [m1, m2] : ℚ) * 60
        + (parseIntD [s1, s2] : ℚ) + (parseIntD [x1, x2, x3] : ℚ) / 1000
    | _ => 0

/-! ### Segmenter (`generateSRT`, word-grouping part) -/

/-- The speaker map built by `generateSRT`:
`speakerMap.set(speaker.id, speaker.name || "Speaker " + speaker.id)` for
each listed speaker; `Map.get` returns the latest entry for an id and
`undefined` (`none`) for an unlisted id. -/
def speakerMapGet (speakers : List SpeakerInfo) (sid : String) : Option String :=
  match speakers.reverse.find? (fun sp => sp.id == sid) with
  | some sp =>
    some (match sp.name with
      | some n => if n == "" then "Speaker " ++ sp.id else n
      | none => "Speaker " ++ sp.id)
  | none => none

/-- The `shouldStartNew` condition of `generateSRT`, for the already
extracted `wordStart` and `speakerId`:
`!currentSubtitle || (speakerId && currentSubtitle.speaker !== speakerId) ||
(wordStart - currentSubtitle.end > 2.0) ||
(currentSubtitle.text.length > characterLimit)`. -/
def shouldStartNew (characterLimit : ℚ) (current : Option SRTSubtitle)
    (wordStart : ℚ) (speakerId : Option String) : Bool :=
  match current with
  | none => true
  | some c =>
    (truthyStr speakerId && !(c.speaker == speakerId))
      || decide (wordStart - c.«end» > 2)
      || decide ((c.text.length : ℚ) > characterLimit)

/-- Loop state of the word loop in `generateSRT`. -/
structure SegState where
  subtitles : List SRTSubtitle
  current : Option SRTSubtitle
  subtitleIndex : Nat

/-- One iteration of the word loop of `generateSRT`. -/
def segStep (speakers : List SpeakerInfo) (characterLimit : ℚ)
    (st : SegState) (w : TranscriptionWord) : SegState :=
  let wordText := w.word.getD ""
  let wordStart := w.start.getD 0
  let wordEnd := w.«end».getD 0
  let speakerId := w.speaker_id
  if shouldStartNew characterLimit st.current wordStart speakerId then
    { subtitles :=
        match st.current with
        | some c => st.subtitles ++ [c]
        | none => st.subtitles
      current := some
        { index := st.subtitleIndex
          start := wordStart
          «end» := wordEnd
          text := wordText
          speaker := if truthyStr speakerId then speakerMapGet speakers (speakerId.getD "") else none }
      subtitleIndex := st.subtitleIndex + 1 }
  else
    match st.current with
    | some c =>
      { st with current := some { c with text := c.text ++ " " ++ wordText, «end» := wordEnd } }
    | none => st

/-- The word-grouping pass of `generateSRT`: fold the loop over the words
and flush the final open subtitle. -/
def generateSubtitles (words : List TranscriptionWord) (speakers : List SpeakerInfo)
    (characterLimit : ℚ) : List SRTSubtitle :=
  let st := words.foldl (segStep speakers characterLimit) ⟨[], none, 1⟩
  match st.current with
  | some c => st.subtitles ++ [c]
  | none => st.subtitles

/-! ### Serializer (`convertToSRTFormat`) -/

/-- The text line pushed for one subtitle: trimmed text, prefixed with
`[speaker] ` when `subtitle.speaker` is truthy. -/
def subTextLine (s : SRTSubtitle) : Line :=
  let t := trimC s.text.data
  if truthyStr s.speaker then '[' :: (s.speaker.getD "").data ++ ']' :: ' ' :: t else t

/-- The four lines pushed onto `srtLines` for one subtitle: decimal index,
`start --> end` timing line, text line, and the empty separator line. -/
def subLines (s : SRTSubtitle) : List Line :=
  [natDigits s.index,
   formatTimeL s.start ++ arrowSep ++ formatTimeL s.«end»,
   subTextLine s,
   []]

/-- `SRTProcessor.convertToSRTFormat`: all subtitles' lines joined with
newlines. -/
def convertToSRTFormat (subtitles : List SRTSubtitle) : String :=
  String.mk (joinNl (subtitles.flatMap subLines))

/-- `SRTProcessor.generateSRT`: fail on a missing/non-array `words`
property, otherwise group words into subtitles (with an empty speaker map
when `speakers` is missing/non-array) and serialize them. -/
def generateSRT (transcriptionData : TranscriptionData) (characterLimit : ℚ) :
    Except String String :=
  match transcriptionData.words with
  | none => .error "Invalid transcription data: missing words array"
  | some ws =>
    .ok (convertToSRTFormat
      (generateSubtitles ws (transcriptionData.speakers.getD []) characterLimit))

/-! ### Timing stitcher (`adjustTiming`)

The `while` loop of `adjustTiming` only reads lines at positions `>= i` and
advances `i` strictly, so it is translated as a recursion on the suffix of
the line list starting at `i`, with a fuel argument (bounded by the suffix
length) making the recursion structural. -/

/-- The inner `while (k < lines.length)` search of `adjustTiming` for the
next subtitle's start time: first line that is an index line whose successor
contains `-->` and a timestamp. -/
def findNextStart : List Line → Option Line
  | [] => none
  | l :: rest =>
    if isIdxLine (trimC l) then
      match rest with
      | [] => findNextStart rest
      | nextTimingLine :: _ =>
        if hasSub arrowPat nextTimingLine then
          match first12 nextTimingLine with
          | some ts => some ts
          | none => findNextStart rest
        else findNextStart rest
    else findNextStart rest

/-- One block-processing pass of the `adjustTiming` loop, on the suffix of
the line list starting at the current position. -/
def adjustAux : Nat → List Line → List Line
  | 0, _ => []
  | _ + 1, [] => []
  | fuel + 1, line :: rest =>
    let t := trimC line
    if isIdxLine t then
      match rest with
      | [] => adjustAux fuel rest
      | timingLine :: rest2 =>
        if hasSub arrowPat timingLine then
          let textLines := rest2.takeWhile (fun l => !(trimC l).isEmpty)
          let rest3 := rest2.dropWhile (fun l => !(trimC l).isEmpty)
          match matchTiming timingLine with
          | some (startTime, endTime) =>
            let nextStartTime := findNextStart (rest3.drop 1)
            let endTime2 := nextStartTime.getD endTime
            t :: (startTime ++ arrowSep ++ endTime2) :: (textLines ++ ([] : Line) :: adjustAux fuel rest3)
          | none => adjustAux fuel rest3
        else adjustAux fuel (timingLine :: rest2)
    else adjustAux fuel rest

/-- `SRTProcessor.adjustTiming`: split into lines, run the loop, join the
adjusted lines with newlines. -/
def adjustTiming (srtContent : String) : String :=
  let lines := splitNl srtContent.data
  String.mk (joinNl (adjustAux lines.length lines))

end SRTProcessor

/-! ### Specification-level stitcher and block reading

`stitchCues` is the structured Timing Stitcher stated by the specification
(§4.3): every cue except the last gets its successor's start time as its new
end; it is the reference point against which the textual `adjustTiming` pass
is compared. `SrtBlock`/`srtBlocks` read a serialized SRT text back into
blocks using exactly the grammar `adjustTiming` itself uses (index line,
`-->` timing line with the two captured timestamps, text lines up to a blank
line); they are the measuring instrument used to state claims about the
textual output. -/

/-- Structured stitcher following the specification text: rewrite each
cue's `end` to the next cue's `start`; the last cue is untouched. -/
def stitchCues : List SRTSubtitle → List SRTSubtitle
  | [] => []
  | [c] => [c]
  | c :: c2 :: rest => { c with «end» := c2.start } :: stitchCues (c2 :: rest)

/-- One subtitle block of a serialized SRT text, as read by the grammar of
`adjustTiming`: trimmed index line, the two captured timestamps, and the
text lines. -/
structure SrtBlock where
  idx : Line
  startT : Line
  endT : Line
  txt : List Line
deriving DecidableEq

/-- Read a line list into subtitle blocks with the same scanning rules as
`adjustTiming` (fuel-indexed like `adjustAux`). -/
def srtBlocksAux : Nat → List Line → List SrtBlock
  | 0, _ => []
  | _ + 1, [] => []
  | fuel + 1, line :: rest =>
    let t := trimC line
    if isIdxLine t then
      match rest with
      | [] => srtBlocksAux fuel rest
      | timingLine :: rest2 =>
        if hasSub arrowPat timingLine then
          let textLines := rest2.takeWhile (fun l => !(trimC l).isEmpty)
          let rest3 := rest2.dropWhile (fun l => !(trimC l).isEmpty)
          match matchTiming timingLine with
          | some (startTime, endTime) =>
            ⟨t, startTime, endTime, textLines⟩ :: srtBlocksAux fuel rest3
          | none => srtBlocksAux fuel rest3
        else srtBlocksAux fuel (timingLine :: rest2)
    else srtBlocksAux fuel rest

/-- Read a serialized SRT string into its subtitle blocks. -/
def srtBlocksOf (s : String) : List SrtBlock :=
  srtBlocksAux (splitNl s.data).length (splitNl s.data)

/-- Well-formedness of one cue for the textual stitching pass: timestamps
below 100 hours (so that hour fields are two digits), nonnegative times, and
a rendered text line that is a single non-blank line. -/
def WfCue (c : SRTSubtitle) : Prop :=
  0 ≤ c.start ∧ c.start < 360000 ∧ 0 ≤ c.«end» ∧ c.«end» < 360000 ∧
    ('\n' ∈ SRTProcessor.subTextLine c → False) ∧ trimC (SRTProcessor.subTextLine c) ≠ []

instance (c : SRTSubtitle) : Decidable (WfCue c) := by
  unfold WfCue; infer_instance

/-! ### Helper lemmas: lists, characters, digits -/

theorem length_dropWhile_le' (p : α → Bool) (l : List α) :
    (l.dropWhile p).length ≤ l.length := by
  induction l with
  | nil => simp [List.dropWhile]
  | cons a t ih =>
    by_cases h : p a = true
    · simp only [List.dropWhile, h]
      exact ih.trans (by simp)
    · simp only [List.dropWhile, h]
      simp

theorem digitChar_isDigit {k : Nat} (h : k < 10) : (Nat.digitChar k).isDigit = true := by
  interval_cases k <;> decide

theorem digitChar_decode {k : Nat} (h : k < 10) : (Nat.digitChar k).toNat - 48 = k := by
  interval_cases k <;> decide

theorem isDigit_not_ws {c : Char} (h : c.isDigit = true) : wsChar c = false := by
  simp only [Char.isDigit, decide_eq_true_eq] at h
  simp only [wsChar, Bool.or_eq_false_iff, beq_eq_false_iff_ne, ne_eq]
  refine ⟨⟨⟨⟨⟨?_, ?_⟩, ?_⟩, ?_⟩, ?_⟩, ?_⟩ <;>
    (intro hc; subst hc; revert h; decide)

theorem isDigit_ne_nl {c : Char} (h : c.isDigit = true) : c ≠ '\n' := by
  intro hc; subst hc; revert h; decide

theorem natDigitsAux_digits : ∀ f n, n < f → ∀ c ∈ natDigitsAux f n, c.isDigit = true := by
  intro f
  induction f with
  | zero => intro n h; omega
  | succ f ih =>
    intro n h c hc
    by_cases h10 : n < 10
    · simp only [natDigitsAux, if_pos h10, List.mem_singleton] at hc
      subst hc; exact digitChar_isDigit h10
    · simp only [natDigitsAux, if_neg h10, List.mem_append, List.mem_singleton] at hc
      rcases hc with hc | hc
      · exact ih (n / 10) (by omega) c hc
      · subst hc; exact digitChar_isDigit (Nat.mod_lt _ (by omega))

theorem natDigits_digits (n : Nat) : ∀ c ∈ natDigits n, c.isDigit = true :=
  natDigitsAux_digits (n + 1) n (Nat.lt_succ_self n)

theorem natDigitsAux_ne_nil (f n : Nat) : natDigitsAux (f + 1) n ≠ [] := by
  by_cases h10 : n < 10
  · simp [natDigitsAux, if_pos h10]
  · simp [natDigitsAux, if_neg h10]

theorem natDigits_ne_nil (n : Nat) : natDigits n ≠ [] := natDigitsAux_ne_nil n n

theorem isIdxLine_natDigits (n : Nat) : isIdxLine (natDigits n) = true := by
  have hdg := natDigits_digits n
  cases hn : natDigits n with
  | nil => exact absurd hn (natDigits_ne_nil n)
  | cons a t =>
    simp only [isIdxLine, List.isEmpty_cons, Bool.not_false, Bool.true_and, List.all_eq_true]
    intro c hc
    exact hdg c (hn ▸ hc)

theorem trimC_of_no_ws {l : Line} (h : ∀ c ∈ l, wsChar c = false) : trimC l = l := by
  have h1 : l.dropWhile wsChar = l := by
    cases l with
    | nil => rfl
    | cons a t => simp [List.dropWhile, h a (List.mem_cons_self a t)]
  have h2 : l.reverse.dropWhile wsChar = l.reverse := by
    cases hr : l.reverse with
    | nil => rfl
    | cons a t =>
      have ha : a ∈ l := by
        have : a ∈ l.reverse := by rw [hr]; exact List.mem_cons_self a t
        simpa using this
      simp [List.dropWhile, h a ha]
  rw [trimC, h1, h2, List.reverse_reverse]

theorem trimC_natDigits (n : Nat) : trimC (natDigits n) = natDigits n :=
  trimC_of_no_ws (fun c hc => isDigit_not_ws (natDigits_digits n c hc))

theorem parseIntD_append_one (l : Line) (c : Char) :
    parseIntD (l ++ [c]) = 10 * parseIntD l + (c.toNat - 48) := by
  simp [parseIntD, List.foldl_append]

theorem parseIntD_natDigitsAux : ∀ f n, n < f → parseIntD (natDigitsAux f n) = n := by
  intro f
  induction f with
  | zero => intro n h; omega
  | succ f ih =>
    intro n h
    by_cases h10 : n < 10
    · simp only [natDigitsAux, if_pos h10]
      show 10 * 0 + ((Nat.digitChar n).toNat - 48) = n
      rw [digitChar_decode h10]
      omega
    · simp only [natDigitsAux, if_neg h10]
      rw [parseIntD_append_one, ih (n / 10) (by omega),
        digitChar_decode (Nat.mod_lt _ (by omega))]
      omega

theorem parseIntD_natDigits (n : Nat) : parseIntD (natDigits n) = n :=
  parseIntD_natDigitsAux (n + 1) n (Nat.lt_succ_self n)

theorem natDigitsAux_small {f m : Nat} (hf : 0 < f) (hm : m < 10) :
    natDigitsAux f m = [Nat.digitChar m] := by
  cases f with
  | zero => omega
  | succ f => simp [natDigitsAux, if_pos hm]

theorem natDigitsAux_step {f n : Nat} (h : ¬ n < 10) :
    natDigitsAux (f + 1) n = natDigitsAux f (n / 10) ++ [Nat.digitChar (n % 10)] := by
  simp [natDigitsAux, if_neg h]

theorem natDigits_two {n : Nat} (h1 : 10 ≤ n) (h2 : n < 100) :
    natDigits n = [Nat.digitChar (n / 10), Nat.digitChar (n % 10)] := by
  rw [natDigits, natDigitsAux_step (by omega), natDigitsAux_small (by omega) (by omega)]
  rfl

/-! ### Shapes of padded decimal fields -/

theorem natDigits_one {n : Nat} (h : n < 10) : natDigits n = [Nat.digitChar n] :=
  natDigitsAux_small (Nat.succ_pos n) h

theorem natDigitsAux_step' {f n : Nat} (hf : 0 < f) (h : ¬ n < 10) :
    natDigitsAux f n = natDigitsAux (f - 1) (n / 10) ++ [Nat.digitChar (n % 10)] := by
  cases f with
  | zero => omega
  | succ f => simp [natDigitsAux, if_neg h]

theorem natDigits_three {n : Nat} (h1 : 100 ≤ n) (h2 : n < 1000) :
    natDigits n = [Nat.digitChar (n / 100), Nat.digitChar (n / 10 % 10), Nat.digitChar (n % 10)] := by
  rw [natDigits, natDigitsAux_step' (by omega) (by omega),
    natDigitsAux_step' (by omega) (by omega),
    natDigitsAux_small (by omega) (by omega), Nat.div_div_eq_div_mul]
  rfl

theorem pad2_shape (n : Nat) (h : n < 100) :
    ∃ a b : Char, padZeros 2 (natDigits n) = [a, b] ∧ a.isDigit = true ∧ b.isDigit = true ∧
      parseIntD [a, b] = n := by
  by_cases h10 : n < 10
  · refine ⟨'0', Nat.digitChar n, ?_, by decide, digitChar_isDigit h10, ?_⟩
    · rw [natDigits_one h10]; rfl
    · show 10 * (10 * 0 + ('0'.toNat - 48)) + ((Nat.digitChar n).toNat - 48) = n
      rw [digitChar_decode h10]
      have h48 : '0'.toNat = 48 := rfl
      rw [h48]
      omega
  · refine ⟨Nat.digitChar (n / 10), Nat.digitChar (n % 10), ?_,
      digitChar_isDigit (by omega), digitChar_isDigit (by omega), ?_⟩
    · rw [natDigits_two (by omega) h]; rfl
    · show 10 * (10 * 0 + ((Nat.digitChar (n / 10)).toNat - 48))
          + ((Nat.digitChar (n % 10)).toNat - 48) = n
      rw [digitChar_decode (by omega : n / 10 < 10), digitChar_decode (by omega : n % 10 < 10)]
      omega

theorem pad3_shape (n : Nat) (h : n < 1000) :
    ∃ a b c : Char, padZeros 3 (natDigits n) = [a, b, c] ∧ a.isDigit = true ∧
      b.isDigit = true ∧ c.isDigit = true ∧ parseIntD [a, b, c] = n := by
  by_cases h10 : n < 10
  · refine ⟨'0', '0', Nat.digitChar n, ?_, by decide, by decide, digitChar_isDigit h10, ?_⟩
    · rw [natDigits_one h10]; rfl
    · show 10 * (10 * (10 * 0 + ('0'.toNat - 48)) + ('0'.toNat - 48))
          + ((Nat.digitChar n).toNat - 48) = n
      rw [digitChar_decode h10]
      have h48 : '0'.toNat = 48 := rfl
      rw [h48]
      omega
  · by_cases h100 : n < 100
    · refine ⟨'0', Nat.digitChar (n / 10), Nat.digitChar (n % 10), ?_,
        by decide, digitChar_isDigit (by omega), digitChar_isDigit (by omega), ?_⟩
      · rw [natDigits_two (by omega) h100]; rfl
      · show 10 * (10 * (10 * 0 + ('0'.toNat - 48)) + ((Nat.digitChar (n / 10)).toNat - 48))
            + ((Nat.digitChar (n % 10)).toNat - 48) = n
        rw [digitChar_decode (by omega : n / 10 < 10), digitChar_decode (by omega : n % 10 < 10)]
        have h48 : '0'.toNat = 48 := rfl
        rw [h48]
        omega
    · refine ⟨Nat.digitChar (n / 100), Nat.digitChar (n / 10 % 10), Nat.digitChar (n % 10), ?_,
        digitChar_isDigit (by omega), digitChar_isDigit (by omega),
        digitChar_isDigit (by omega), ?_⟩
      · rw [natDigits_three (by omega) h]; rfl
      · show 10 * (10 * (10 * 0 + ((Nat.digitChar (n / 100)).toNat - 48))
            + ((Nat.digitChar (n / 10 % 10)).toNat - 48))
            + ((Nat.digitChar (n % 10)).toNat - 48) = n
        rw [digitChar_decode (by omega : n / 100 < 10),
          digitChar_decode (by omega : n / 10 % 10 < 10),
          digitChar_decode (by omega : n % 10 < 10)]
        omega

/-! ### Bounds for the time fields -/

theorem jsMod_bounds {a b : ℚ} (ha : 0 ≤ a) (hb : 0 < b) :
    0 ≤ jsMod a b ∧ jsMod a b < b := by
  have hdiv : (0 : ℚ) ≤ a / b := div_nonneg ha hb.le
  have hbne : b ≠ 0 := ne_of_gt hb
  have hcancel : b * (a / b) = a := mul_div_cancel₀ a hbne
  have hq1 : ((⌊a / b⌋ : ℚ)) ≤ a / b := Int.floor_le (a / b)
  have hq2 : a / b < (⌊a / b⌋ : ℚ) + 1 := Int.lt_floor_add_one (a / b)
  rw [jsMod, jsTrunc, if_pos hdiv]
  constructor
  · nlinarith
  · nlinarith

theorem intDigits_nonneg {i : Int} (h : 0 ≤ i) : intDigits i = natDigits i.toNat := by
  rw [intDigits, if_neg (by omega)]

theorem timeFields_bounds (s : ℚ) (h0 : 0 ≤ s) (h1 : s < 360000) :
    (0 ≤ ⌊s / 3600⌋ ∧ ⌊s / 3600⌋ < 100) ∧
    (0 ≤ ⌊jsMod s 3600 / 60⌋ ∧ ⌊jsMod s 3600 / 60⌋ < 60) ∧
    (0 ≤ ⌊jsMod s 60⌋ ∧ ⌊jsMod s 60⌋ < 60) ∧
    (0 ≤ ⌊jsMod s 1 * 1000⌋ ∧ ⌊jsMod s 1 * 1000⌋ < 1000) := by
  obtain ⟨hm1, hm2⟩ := jsMod_bounds h0 (by norm_num : (0:ℚ) < 3600)
  obtain ⟨hn1, hn2⟩ := jsMod_bounds h0 (by norm_num : (0:ℚ) < 60)
  obtain ⟨ho1, ho2⟩ := jsMod_bounds h0 (by norm_num : (0:ℚ) < 1)
  refine ⟨⟨?_, ?_⟩, ⟨?_, ?_⟩, ⟨?_, ?_⟩, ⟨?_, ?_⟩⟩
  · exact Int.floor_nonneg.2 (div_nonneg h0 (by norm_num))
  · exact Int.floor_lt.2 (by rw [div_lt_iff₀ (by norm_num : (0:ℚ) < 3600)]; push_cast; linarith)
  · exact Int.floor_nonneg.2 (div_nonneg hm1 (by norm_num))
  · exact Int.floor_lt.2 (by rw [div_lt_iff₀ (by norm_num : (0:ℚ) < 60)]; push_cast; linarith)
  · exact Int.floor_nonneg.2 hn1
  · exact Int.floor_lt.2 (by push_cast; linarith)
  · exact Int.floor_nonneg.2 (by nlinarith)
  · exact Int.floor_lt.2 (by push_cast; nlinarith)

theorem formatTimeL_shape (s : ℚ) (h0 : 0 ≤ s) (h1 : s < 360000) :
    ∃ a b c d e f g h i : Char,
      SRTProcessor.formatTimeL s = [a, b, ':', c, d, ':', e, f, ',', g, h, i] ∧
      a.isDigit = true ∧ b.isDigit = true ∧ c.isDigit = true ∧ d.isDigit = true ∧
      e.isDigit = true ∧ f.isDigit = true ∧ g.isDigit = true ∧ h.isDigit = true ∧
      i.isDigit = true ∧
      parseIntD [a, b] = ⌊s / 3600⌋.toNat ∧ parseIntD [c, d] = ⌊jsMod s 3600 / 60⌋.toNat ∧
      parseIntD [e, f] = ⌊jsMod s 60⌋.toNat ∧ parseIntD [g, h, i] = ⌊jsMod s 1 * 1000⌋.toNat := by
  obtain ⟨⟨hH0, hH1⟩, ⟨hM0, hM1⟩, ⟨hS0, hS1⟩, ⟨hX0, hX1⟩⟩ := timeFields_bounds s h0 h1
  obtain ⟨a, b, hab, ha, hb, habv⟩ := pad2_shape ⌊s / 3600⌋.toNat (by omega)
  obtain ⟨c, d, hcd, hc, hd, hcdv⟩ := pad2_shape ⌊jsMod s 3600 / 60⌋.toNat (by omega)
  obtain ⟨e, f, hef, he, hf, hefv⟩ := pad2_shape ⌊jsMod s 60⌋.toNat (by omega)
  obtain ⟨g, h', i, hghi, hg, hh, hi, hghiv⟩ := pad3_shape ⌊jsMod s 1 * 1000⌋.toNat (by omega)
  refine ⟨a, b, c, d, e, f, g, h', i, ?_, ha, hb, hc, hd, he, hf, hg, hh, hi, habv, hcdv, hefv, hghiv⟩
  simp only [SRTProcessor.formatTimeL]
  rw [intDigits_nonneg hH0, intDigits_nonneg hM0, intDigits_nonneg hS0, intDigits_nonneg hX0,
    hab, hcd, hef, hghi]
  rfl

/-! ### Timestamp-shape lemmas for the regex machinery -/

/-- A line of exactly the 12-character shape `dd:dd:dd,ddd`. -/
def TsShape (w : Line) : Prop :=
  ∃ a b c d e f g h i : Char,
    w = [a, b, ':', c, d, ':', e, f, ',', g, h, i] ∧
    a.isDigit = true ∧ b.isDigit = true ∧ c.isDigit = true ∧ d.isDigit = true ∧
    e.isDigit = true ∧ f.isDigit = true ∧ g.isDigit = true ∧ h.isDigit = true ∧ i.isDigit = true

theorem formatTimeL_tsShape {s : ℚ} (h0 : 0 ≤ s) (h1 : s < 360000) :
    TsShape (SRTProcessor.formatTimeL s) := by
  obtain ⟨a, b, c, d, e, f, g, h', i, hw, ha, hb, hc, hd, he, hf, hg, hh, hi, -, -, -, -⟩ :=
    formatTimeL_shape s h0 h1
  exact ⟨a, b, c, d, e, f, g, h', i, hw, ha, hb, hc, hd, he, hf, hg, hh, hi⟩

theorem ts12_of_shape {w : Line} (hw : TsShape w) (r : Line) :
    ts12 (w ++ r) = some (w, r) := by
  obtain ⟨a, b, c, d, e, f, g, h', i, hw, ha, hb, hc, hd, he, hf, hg, hh, hi⟩ := hw
  subst hw
  simp [ts12, ha, hb, hc, hd, he, hf, hg, hh, hi]

theorem tsShape_head {w : Line} (hw : TsShape w) :
    ∃ a t, w = a :: t ∧ a.isDigit = true := by
  obtain ⟨a, b, c, d, e, f, g, h', i, hw, ha, -⟩ := hw
  exact ⟨a, _, hw, ha⟩

theorem tsShape_no_nl {w : Line} (hw : TsShape w) : '\n' ∈ w → False := by
  obtain ⟨a, b, c, d, e, f, g, h', i, hw, ha, hb, hc, hd, he, hf, hg, hh, hi⟩ := hw
  subst hw
  intro hmem
  simp only [List.mem_cons, List.not_mem_nil, or_false] at hmem
  rcases hmem with h | h | h | h | h | h | h | h | h | h | h | h <;>
    first
      | (exact absurd h.symm (by decide))
      | (exact isDigit_ne_nl (by assumption) h.symm)

theorem dropWs_of_digit_head {w : Line} (hw : ∃ a t, w = a :: t ∧ a.isDigit = true) :
    dropWs w = w := by
  obtain ⟨a, t, hw, ha⟩ := hw
  subst hw
  simp [dropWs, List.dropWhile, isDigit_not_ws ha]

theorem matchTimingAt_arrow {A B : Line} (hA : TsShape A) (hB : TsShape B) :
    matchTimingAt (A ++ arrowSep ++ B) = some (A, B) := by
  have h1 : ts12 (A ++ arrowSep ++ B) = some (A, arrowSep ++ B) := by
    rw [List.append_assoc]
    exact ts12_of_shape hA (arrowSep ++ B)
  have h2 : dropWs (arrowSep ++ B) = '-' :: '-' :: '>' :: ' ' :: B := by
    simp [arrowSep, dropWs, List.dropWhile, wsChar]
  have hb : dropWs B = B := dropWs_of_digit_head (tsShape_head hB)
  have h3 : dropWs (' ' :: B) = B := by
    rw [dropWs, List.dropWhile_cons, if_pos (by decide : wsChar ' ' = true)]
    exact hb
  have h4 : ts12 B = some (B, []) := by
    have := ts12_of_shape hB []
    simpa using this
  rw [matchTimingAt]
  simp only [h1, h2, h3, h4]

theorem matchTiming_arrow {A B : Line} (hA : TsShape A) (hB : TsShape B) :
    matchTiming (A ++ arrowSep ++ B) = some (A, B) := by
  obtain ⟨a, t, hAe, ha⟩ := tsShape_head hA
  have hcons : A ++ arrowSep ++ B = a :: (t ++ arrowSep ++ B) := by
    rw [hAe]; simp
  rw [hcons, matchTiming]
  rw [← hcons]
  rw [matchTimingAt_arrow hA hB]

theorem first12_of_shape {A : Line} (hA : TsShape A) (r : Line) :
    first12 (A ++ r) = some A := by
  obtain ⟨a, t, hAe, ha⟩ := tsShape_head hA
  have hcons : A ++ r = a :: (t ++ r) := by rw [hAe]; simp
  rw [hcons, first12, ← hcons, ts12_of_shape hA r]

/-! ### Round-trip arithmetic for the time codec -/

theorem jsMod_eq_sub_floor {a b : ℚ} (ha : 0 ≤ a) (hb : 0 < b) :
    jsMod a b = a - b * ⌊a / b⌋ := by
  rw [jsMod, jsTrunc, if_pos (div_nonneg ha hb.le)]

theorem floor_field_sum (s : ℚ) (h0 : 0 ≤ s) :
    (⌊s / 3600⌋ : ℚ) * 3600 + (⌊jsMod s 3600 / 60⌋ : ℚ) * 60 + (⌊jsMod s 60⌋ : ℚ)
      + (⌊jsMod s 1 * 1000⌋ : ℚ) / 1000 = (⌊1000 * s⌋ : ℚ) / 1000 := by
  have e1 : jsMod s 3600 = s - 3600 * ⌊s / 3600⌋ := jsMod_eq_sub_floor h0 (by norm_num)
  have e3 : jsMod s 60 = s - 60 * ⌊s / 60⌋ := jsMod_eq_sub_floor h0 (by norm_num)
  have e5 : jsMod s 1 = s - ⌊s⌋ := by
    have := jsMod_eq_sub_floor h0 (by norm_num : (0:ℚ) < 1)
    simpa using this
  have e2 : ⌊jsMod s 3600 / 60⌋ = ⌊s / 60⌋ - 60 * ⌊s / 3600⌋ := by
    rw [e1]
    have harg : (s - 3600 * (⌊s / 3600⌋ : ℚ)) / 60 = s / 60 + (-(60 * ⌊s / 3600⌋) : ℤ) := by
      push_cast
      ring
    rw [harg, Int.floor_add_int]
    ring
  have e4 : ⌊jsMod s 60⌋ = ⌊s⌋ - 60 * ⌊s / 60⌋ := by
    rw [e3]
    have harg : s - 60 * (⌊s / 60⌋ : ℚ) = s + (-(60 * ⌊s / 60⌋) : ℤ) := by
      push_cast
      ring
    rw [harg, Int.floor_add_int]
    ring
  have e6 : ⌊jsMod s 1 * 1000⌋ = ⌊1000 * s⌋ - 1000 * ⌊s⌋ := by
    rw [e5]
    have harg : (s - (⌊s⌋ : ℚ)) * 1000 = 1000 * s + (-(1000 * ⌊s⌋) : ℤ) := by
      push_cast
      ring
    rw [harg, Int.floor_add_int]
    ring
  rw [e2, e4, e6]
  push_cast
  ring

theorem parseTime_formatTime (s : ℚ) (h0 : 0 ≤ s) (h1 : s < 360000) :
    SRTProcessor.parseTime (SRTProcessor.formatTime s) = some ((⌊1000 * s⌋ : ℚ) / 1000) := by
  obtain ⟨a, b, c, d, e, f, g, h', i, hw, ha, hb, hc, hd, he, hf, hg, hh, hi,
    hab, hcd, hef, hghi⟩ := formatTimeL_shape s h0 h1
  obtain ⟨⟨hH0, -⟩, ⟨hM0, -⟩, ⟨hS0, -⟩, ⟨hX0, -⟩⟩ := timeFields_bounds s h0 h1
  have hdata : (SRTProcessor.formatTime s).data = SRTProcessor.formatTimeL s := rfl
  have hshape : TsShape (SRTProcessor.formatTimeL s) := formatTimeL_tsShape h0 h1
  have hfirst : first12 (SRTProcessor.formatTimeL s) = some (SRTProcessor.formatTimeL s) := by
    have := first12_of_shape hshape []
    simpa using this
  rw [SRTProcessor.parseTime, hdata, hfirst, Option.map_some']
  rw [hw]
  simp only [hab, hcd, hef, hghi]
  congr 1
  have cH : ((⌊s / 3600⌋.toNat : ℕ) : ℚ) = (⌊s / 3600⌋ : ℚ) := by
    exact_mod_cast congrArg (fun z : ℤ => (z : ℚ)) (Int.toNat_of_nonneg hH0)
  have cM : ((⌊jsMod s 3600 / 60⌋.toNat : ℕ) : ℚ) = (⌊jsMod s 3600 / 60⌋ : ℚ) := by
    exact_mod_cast congrArg (fun z : ℤ => (z : ℚ)) (Int.toNat_of_nonneg hM0)
  have cS : ((⌊jsMod s 60⌋.toNat : ℕ) : ℚ) = (⌊jsMod s 60⌋ : ℚ) := by
    exact_mod_cast congrArg (fun z : ℤ => (z : ℚ)) (Int.toNat_of_nonneg hS0)
  have cX : ((⌊jsMod s 1 * 1000⌋.toNat : ℕ) : ℚ) = (⌊jsMod s 1 * 1000⌋ : ℚ) := by
    exact_mod_cast congrArg (fun z : ℤ => (z : ℚ)) (Int.toNat_of_nonneg hX0)
  rw [cH, cM, cS, cX]
  rw [← floor_field_sum s h0]

/-! ### Scanning lemmas for serialized subtitle blocks -/

theorem leadsWith_refl_append (p r : Line) : leadsWith p (p ++ r) = true := by
  induction p with
  | nil => rfl
  | cons a t ih => simp [leadsWith, ih]

theorem hasSub_of_append (p : Line) : ∀ x y : Line, hasSub p (x ++ p ++ y) = true := by
  intro x
  induction x with
  | nil =>
    intro y
    cases p with
    | nil =>
      cases y with
      | nil => rfl
      | cons c t => simp [hasSub, leadsWith]
    | cons a t =>
      show hasSub (a :: t) ((a :: t) ++ y) = true
      simp only [hasSub, List.cons_append, Bool.or_eq_true]
      exact Or.inl (by simpa [leadsWith] using leadsWith_refl_append (a :: t) y)
  | cons c x' ih =>
    intro y
    show hasSub p (c :: (x' ++ p ++ y)) = true
    simp only [hasSub, Bool.or_eq_true]
    have := ih y
    rw [List.append_assoc] at this
    rw [List.append_assoc]
    exact Or.inr this

theorem hasSub_arrow_timing (A B : Line) : hasSub arrowPat (A ++ arrowSep ++ B) = true := by
  have h : A ++ arrowSep ++ B = (A ++ [' ']) ++ arrowPat ++ (' ' :: B) := by
    simp [arrowSep, arrowPat]
  rw [h]
  exact hasSub_of_append arrowPat (A ++ [' ']) (' ' :: B)

theorem takeWhile_block (txt : Line) (L : List Line) (h : (trimC txt).isEmpty = false) :
    (txt :: ([] : Line) :: L).takeWhile (fun l => !(trimC l).isEmpty) = [txt] ∧
    (txt :: ([] : Line) :: L).dropWhile (fun l => !(trimC l).isEmpty) = ([] : Line) :: L := by
  have hgo : (!(trimC txt).isEmpty) = true := by simp [h]
  have hstop : (!(trimC ([] : Line)).isEmpty) = false := by decide
  constructor
  · simp [List.takeWhile_cons, hgo, hstop]
  · simp [List.dropWhile_cons, hgo, hstop]

theorem findNextStart_nil : SRTProcessor.findNextStart [] = none := rfl

/-- Well-formedness implies the bounds needed for the cue's formatted
timestamps to have the two-digit-hour shape. -/
theorem wfCue_shapes {c : SRTSubtitle} (h : WfCue c) :
    TsShape (SRTProcessor.formatTimeL c.start) ∧ TsShape (SRTProcessor.formatTimeL c.«end») := by
  obtain ⟨h1, h2, h3, h4, -, -⟩ := h
  exact ⟨formatTimeL_tsShape h1 h2, formatTimeL_tsShape h3 h4⟩

theorem findNextStart_serialized (c2 : SRTSubtitle) (L : List Line) (h : WfCue c2) :
    SRTProcessor.findNextStart (SRTProcessor.subLines c2 ++ L) =
      some (SRTProcessor.formatTimeL c2.start) := by
  obtain ⟨hA, hB⟩ := wfCue_shapes h
  show SRTProcessor.findNextStart (natDigits c2.index ::
    (SRTProcessor.formatTimeL c2.start ++ arrowSep ++ SRTProcessor.formatTimeL c2.«end») ::
    SRTProcessor.subTextLine c2 :: ([] : Line) :: L) = _
  rw [SRTProcessor.findNextStart, trimC_natDigits, if_pos (isIdxLine_natDigits c2.index)]
  simp only [hasSub_arrow_timing, if_pos]
  have hfirst : first12 (SRTProcessor.formatTimeL c2.start ++
      (arrowSep ++ SRTProcessor.formatTimeL c2.«end»)) = some (SRTProcessor.formatTimeL c2.start) :=
    first12_of_shape hA (arrowSep ++ SRTProcessor.formatTimeL c2.«end»)
  rw [List.append_assoc, hfirst]

theorem adjustAux_nil (f : Nat) : SRTProcessor.adjustAux f [] = [] := by
  cases f <;> rfl

theorem subTextLine_end_eq (c : SRTSubtitle) (x : ℚ) :
    SRTProcessor.subTextLine { c with «end» := x } = SRTProcessor.subTextLine c := rfl

theorem subLines_cons_append (c : SRTSubtitle) (L : List Line) :
    SRTProcessor.subLines c ++ L = natDigits c.index ::
      (SRTProcessor.formatTimeL c.start ++ arrowSep ++ SRTProcessor.formatTimeL c.«end») ::
      SRTProcessor.subTextLine c :: ([] : Line) :: L := by
  simp [SRTProcessor.subLines]

theorem adjustAux_block (f : Nat) (c : SRTSubtitle) (L : List Line) (hc : WfCue c) :
    SRTProcessor.adjustAux (f + 2) (SRTProcessor.subLines c ++ L) =
      natDigits c.index ::
        (SRTProcessor.formatTimeL c.start ++ arrowSep ++
          ((SRTProcessor.findNextStart L).getD (SRTProcessor.formatTimeL c.«end»))) ::
        SRTProcessor.subTextLine c :: ([] : Line) :: SRTProcessor.adjustAux f L := by
  obtain ⟨hA, hB⟩ := wfCue_shapes hc
  obtain ⟨-, -, -, -, hnl, htr⟩ := hc
  have hisEmpty : (trimC (SRTProcessor.subTextLine c)).isEmpty = false := by
    cases hsh : trimC (SRTProcessor.subTextLine c) with
    | nil => exact absurd hsh htr
    | cons a t => rfl
  obtain ⟨htake, hdrop⟩ := takeWhile_block (SRTProcessor.subTextLine c) L hisEmpty
  have hblank : isIdxLine (trimC ([] : Line)) = false := by decide
  rw [subLines_cons_append]
  simp only [SRTProcessor.adjustAux, trimC_natDigits, isIdxLine_natDigits, if_pos,
    hasSub_arrow_timing, htake, hdrop, matchTiming_arrow hA hB, List.drop_succ_cons,
    List.drop_zero, hblank, Bool.false_eq_true, if_false, List.cons_append, List.nil_append,
    List.singleton_append]

theorem subLines_length (c : SRTSubtitle) : (SRTProcessor.subLines c).length = 4 := rfl

theorem adjustAux_serialized : ∀ (cues : List SRTSubtitle) (f : Nat),
    (∀ c ∈ cues, WfCue c) → (cues.flatMap SRTProcessor.subLines).length ≤ f →
    SRTProcessor.adjustAux f (cues.flatMap SRTProcessor.subLines) =
      (stitchCues cues).flatMap SRTProcessor.subLines := by
  intro cues
  induction cues with
  | nil =>
    intro f _ _
    simp [adjustAux_nil, stitchCues]
  | cons c rest ih =>
    intro f hwf hlen
    have hc : WfCue c := hwf c (List.mem_cons_self c rest)
    have hwfr : ∀ x ∈ rest, WfCue x := fun x hx => hwf x (List.mem_cons_of_mem c hx)
    have hlen4 : 4 + (rest.flatMap SRTProcessor.subLines).length ≤ f := by
      have : ((c :: rest).flatMap SRTProcessor.subLines).length =
          4 + (rest.flatMap SRTProcessor.subLines).length := by
        rw [List.flatMap_cons, List.length_append, subLines_length]
      omega
    obtain ⟨f2, rfl⟩ : ∃ f2, f = f2 + 2 := ⟨f - 2, by omega⟩
    rw [List.flatMap_cons, adjustAux_block f2 c (rest.flatMap SRTProcessor.subLines) hc]
    cases rest with
    | nil =>
      simp only [List.flatMap_nil, findNextStart_nil, Option.getD_none, adjustAux_nil]
      show _ = (stitchCues [c]).flatMap SRTProcessor.subLines
      simp [stitchCues, SRTProcessor.subLines]
    | cons c2 rest' =>
      have hc2 : WfCue c2 := hwfr c2 (List.mem_cons_self c2 rest')
      rw [List.flatMap_cons, findNextStart_serialized c2 _ hc2, Option.getD_some,
        ← List.flatMap_cons]
      rw [ih (f2) hwfr (by
        have h2 : ((c :: c2 :: rest').flatMap SRTProcessor.subLines).length =
            4 + ((c2 :: rest').flatMap SRTProcessor.subLines).length := by
          rw [List.flatMap_cons, List.length_append, subLines_length]
        omega)]
      show _ = (stitchCues (c :: c2 :: rest')).flatMap SRTProcessor.subLines
      rw [stitchCues, List.flatMap_cons]
      rw [subLines_cons_append]
      rfl

/-! ### From lines back to strings -/

theorem splitNl_no_nl {l : Line} (h : '\n' ∉ l) : splitNl l = [l] := by
  induction l with
  | nil => rfl
  | cons c t ih =>
    have hc : ¬ c = '\n' := fun hc => h (hc ▸ List.mem_cons_self c t)
    have ht : '\n' ∉ t := fun hm => h (List.mem_cons_of_mem c hm)
    rw [splitNl, if_neg hc, ih ht]

theorem splitNl_append_nl {l : Line} (r : Line) (h : '\n' ∉ l) :
    splitNl (l ++ '\n' :: r) = l :: splitNl r := by
  induction l with
  | nil => simp [splitNl]
  | cons c t ih =>
    have hc : ¬ c = '\n' := fun hc => h (hc ▸ List.mem_cons_self c t)
    have ht : '\n' ∉ t := fun hm => h (List.mem_cons_of_mem c hm)
    rw [List.cons_append, splitNl, if_neg hc, ih ht]

theorem splitNl_joinNl : ∀ L : List Line, L ≠ [] → (∀ l ∈ L, '\n' ∉ l) →
    splitNl (joinNl L) = L := by
  intro L
  induction L with
  | nil => intro h; exact absurd rfl h
  | cons l L' ih =>
    intro _ hnl
    cases L' with
    | nil =>
      rw [joinNl]
      exact splitNl_no_nl (hnl l (List.mem_cons_self l []))
    | cons l2 L'' =>
      rw [joinNl, splitNl_append_nl _ (hnl l (List.mem_cons_self l _))]
      · rw [ih (List.cons_ne_nil l2 L'') (fun x hx => hnl x (List.mem_cons_of_mem l hx))]
      · exact List.cons_ne_nil l2 L''

theorem arrow_no_nl : '\n' ∉ arrowSep := by decide

theorem subLines_no_nl {c : SRTSubtitle} (hc : WfCue c) :
    ∀ l ∈ SRTProcessor.subLines c, '\n' ∉ l := by
  obtain ⟨hA, hB⟩ := wfCue_shapes hc
  obtain ⟨-, -, -, -, hnl, -⟩ := hc
  intro l hl
  simp only [SRTProcessor.subLines, List.mem_cons, List.not_mem_nil, or_false] at hl
  rcases hl with h | h | h | h
  · subst h
    intro hmem
    exact isDigit_ne_nl (natDigits_digits c.index '\n' hmem) rfl
  · subst h
    intro hmem
    rcases List.mem_append.1 hmem with hm | hm
    · rcases List.mem_append.1 hm with hm2 | hm2
      · exact tsShape_no_nl hA hm2
      · exact arrow_no_nl hm2
    · exact tsShape_no_nl hB hm
  · subst h
    exact hnl
  · subst h
    exact List.not_mem_nil '\n'

theorem flatMap_subLines_no_nl {cues : List SRTSubtitle} (h : ∀ c ∈ cues, WfCue c) :
    ∀ l ∈ cues.flatMap SRTProcessor.subLines, '\n' ∉ l := by
  intro l hl
  obtain ⟨c, hc, hlc⟩ := List.mem_flatMap.1 hl
  exact subLines_no_nl (h c hc) l hlc

theorem adjustTiming_convert (cues : List SRTSubtitle) (h : ∀ c ∈ cues, WfCue c) :
    SRTProcessor.adjustTiming (SRTProcessor.convertToSRTFormat cues) =
      SRTProcessor.convertToSRTFormat (stitchCues cues) := by
  cases cues with
  | nil => decide
  | cons c rest =>
    have hne : (c :: rest).flatMap SRTProcessor.subLines ≠ [] := by
      rw [List.flatMap_cons, subLines_cons_append]
      simp
    rw [SRTProcessor.adjustTiming, SRTProcessor.convertToSRTFormat]
    have hdata : (String.mk (joinNl ((c :: rest).flatMap SRTProcessor.subLines))).data =
        joinNl ((c :: rest).flatMap SRTProcessor.subLines) := rfl
    rw [hdata, splitNl_joinNl _ hne (flatMap_subLines_no_nl h),
      adjustAux_serialized (c :: rest) _ h (le_refl _)]
    rfl

/-! ### Frame lemmas for the structured stitcher -/

theorem stitchCues_length : ∀ l : List SRTSubtitle, (stitchCues l).length = l.length
  | [] => rfl
  | [_] => rfl
  | c :: c2 :: rest => by
    rw [stitchCues]
    simp only [List.length_cons]
    rw [stitchCues_length (c2 :: rest)]
    rfl

theorem stitchCues_short {l : List SRTSubtitle} (h : l.length ≤ 1) : stitchCues l = l := by
  match l, h with
  | [], _ => rfl
  | [c], _ => rfl

theorem stitchCues_getLast? : ∀ l : List SRTSubtitle, (stitchCues l).getLast? = l.getLast?
  | [] => rfl
  | [_] => rfl
  | c :: c2 :: rest => by
    rw [stitchCues]
    rw [List.getLast?_cons_cons]
    have h := stitchCues_getLast? (c2 :: rest)
    cases hs : stitchCues (c2 :: rest) with
    | nil =>
      have := stitchCues_length (c2 :: rest)
      rw [hs] at this
      simp at this
    | cons d ds =>
      rw [hs] at h
      rw [List.getLast?_cons_cons] at *
      rw [← h]

theorem stitchCues_fields : ∀ (l : List SRTSubtitle) (i : Nat)
    (h1 : i < (stitchCues l).length) (h2 : i < l.length),
    ((stitchCues l).get ⟨i, h1⟩).index = (l.get ⟨i, h2⟩).index ∧
    ((stitchCues l).get ⟨i, h1⟩).start = (l.get ⟨i, h2⟩).start ∧
    ((stitchCues l).get ⟨i, h1⟩).text = (l.get ⟨i, h2⟩).text ∧
    ((stitchCues l).get ⟨i, h1⟩).speaker = (l.get ⟨i, h2⟩).speaker := by
  intro l
  induction l with
  | nil => intro i h1 h2; simp at h2
  | cons c rest ih =>
    intro i h1 h2
    cases rest with
    | nil =>
      cases i with
      | zero => exact ⟨rfl, rfl, rfl, rfl⟩
      | succ i => simp at h2
    | cons c2 rest' =>
      cases i with
      | zero => exact ⟨rfl, rfl, rfl, rfl⟩
      | succ i =>
        have h1' : i < (stitchCues (c2 :: rest')).length := by
          rw [stitchCues_length] at h1 ⊢
          simp only [List.length_cons] at h1 ⊢
          omega
        have h2' : i < (c2 :: rest').length := by
          simp only [List.length_cons] at h2 ⊢
          omega
        have := ih i h1' h2'
        exact this

theorem stitchCues_gap : ∀ (l : List SRTSubtitle) (i : Nat)
    (h1 : i < (stitchCues l).length) (h2 : i + 1 < l.length),
    ((stitchCues l).get ⟨i, h1⟩).«end» =
      (l.get ⟨i + 1, h2⟩).start := by
  intro l
  induction l with
  | nil => intro i h1 h2; simp at h2
  | cons c rest ih =>
    intro i h1 h2
    cases rest with
    | nil => simp at h2
    | cons c2 rest' =>
      cases i with
      | zero => rfl
      | succ i =>
        have h1' : i < (stitchCues (c2 :: rest')).length := by
          rw [stitchCues_length] at h1 ⊢
          simp only [List.length_cons] at h1 ⊢
          omega
        have h2' : i + 1 < (c2 :: rest').length := by
          simp only [List.length_cons] at h2 ⊢
          omega
        exact ih i h1' h2'

/-! ### Segmenter output invariants -/

/-- The `start` a word contributes after the `|| 0` defaulting. -/
def startD (w : TranscriptionWord) : ℚ := w.start.getD 0

/-- The `end` a word contributes after the `|| 0` defaulting. -/
def endD (w : TranscriptionWord) : ℚ := w.«end».getD 0

/-- Valid input in the sense of the specification: words in non-decreasing
start order, each with `0 ≤ start ≤ end`. -/
def ValidWords (ws : List TranscriptionWord) : Prop :=
  List.Chain' (fun a b => startD a ≤ startD b) ws ∧
  ∀ w ∈ ws, 0 ≤ startD w ∧ startD w ≤ endD w

/-- The cue sequence a segmenter state denotes: flushed subtitles plus the
still-open current one. -/
def outList (st : SRTProcessor.SegState) : List SRTSubtitle :=
  st.subtitles ++ st.current.toList

/-- Loop invariant of the word loop: contiguous 1-based indices, `start ≤
end`, starts in order, counter in sync, the open cue's start bounded by the
last processed word's start, and an empty output while no cue is open. -/
def SegInv (st : SRTProcessor.SegState) (b : ℚ) : Prop :=
  (outList st).map SRTSubtitle.index = List.range' 1 (outList st).length ∧
  (∀ c ∈ outList st, c.start ≤ c.«end») ∧
  List.Chain' (fun a b => a.start ≤ b.start) (outList st) ∧
  st.subtitleIndex = (outList st).length + 1 ∧
  (∀ c, st.current = some c → c.start ≤ b) ∧
  (st.current = none → st.subtitles = [])

theorem flushed_eq (st : SRTProcessor.SegState) :
    (match st.current with
      | some c => st.subtitles ++ [c]
      | none => st.subtitles) = outList st := by
  cases h : st.current <;> simp [outList, h]

theorem range'_concat_one (n : Nat) : List.range' 1 (n + 1) = List.range' 1 n ++ [n + 1] := by
  have := @List.range'_concat 1 1 n
  simpa [Nat.add_comm] using this

/-- Re-establishing the invariant for a state whose current cue is `nc`. -/
theorem segInv_mk (subs : List SRTSubtitle) (nc : SRTSubtitle) (b : ℚ)
    (hidx : subs.map SRTSubtitle.index = List.range' 1 subs.length)
    (hse : ∀ c ∈ subs, c.start ≤ c.«end»)
    (hch : List.Chain' (fun a b => a.start ≤ b.start) subs)
    (hlast : ∀ x, subs.getLast? = some x → x.start ≤ nc.start)
    (hncidx : nc.index = subs.length + 1)
    (hncse : nc.start ≤ nc.«end»)
    (hncb : nc.start ≤ b) :
    SegInv ⟨subs, some nc, subs.length + 2⟩ b := by
  have hout : outList ⟨subs, some nc, subs.length + 2⟩ = subs ++ [nc] := by
    simp [outList]
  refine ⟨?_, ?_, ?_, ?_, ?_, ?_⟩
  · rw [hout, List.map_append, hidx, List.length_append]
    simp only [List.map_cons, List.map_nil, List.length_cons, List.length_nil]
    rw [hncidx, show subs.length + (0 + 1) = subs.length + 1 by omega, range'_concat_one]
  · rw [hout]
    intro c hc
    rcases List.mem_append.1 hc with h | h
    · exact hse c h
    · rcases List.mem_singleton.1 h with rfl
      exact hncse
  · rw [hout, List.chain'_append]
    refine ⟨hch, List.chain'_singleton nc, ?_⟩
    intro x hx y hy
    rcases List.mem_singleton.1 (by simpa using hy) with rfl
    exact hlast x hx
  · rw [hout, List.length_append]
    simp
  · intro c hc
    simp only [Option.some.injEq] at hc
    subst hc
    exact hncb
  · intro h
    simp at h

theorem segStep_inv (speakers : List SpeakerInfo) (cl : ℚ) (st : SRTProcessor.SegState)
    (b : ℚ) (w : TranscriptionWord) (hinv : SegInv st b)
    (hw : 0 ≤ startD w ∧ startD w ≤ endD w) (hb : b ≤ startD w) :
    SegInv (SRTProcessor.segStep speakers cl st w) (startD w) := by
  obtain ⟨hidx, hse, hch, hctr, hcur, hnone⟩ := hinv
  have hws : startD w = w.start.getD 0 := rfl
  have hwe : endD w = w.«end».getD 0 := rfl
  by_cases hcond :
      SRTProcessor.shouldStartNew cl st.current (w.start.getD 0) w.speaker_id = true
  · -- a new subtitle is started; the previous current one (if any) is flushed
    have hstep : SRTProcessor.segStep speakers cl st w =
        { subtitles := outList st
          current := some
            { index := st.subtitleIndex
              start := w.start.getD 0
              «end» := w.«end».getD 0
              text := w.word.getD ""
              speaker := if truthyStr w.speaker_id then
                SRTProcessor.speakerMapGet speakers (w.speaker_id.getD "") else none }
          subtitleIndex := st.subtitleIndex + 1 } := by
      rw [SRTProcessor.segStep]
      simp only [hcond, if_true, flushed_eq]
    rw [hstep]
    rw [hctr]
    apply segInv_mk
    · exact hidx
    · exact hse
    · exact hch
    · intro x hx
      cases hcurval : st.current with
      | none =>
        have hsub := hnone hcurval
        have : outList st = [] := by simp [outList, hsub, hcurval]
        rw [this] at hx
        simp at hx
      | some c =>
        have : outList st = st.subtitles ++ [c] := by simp [outList, hcurval]
        rw [this, List.getLast?_concat] at hx
        have hxc : c = x := by simpa using hx
        subst hxc
        show c.start ≤ w.start.getD 0
        rw [← hws]
        exact le_trans (hcur c hcurval) hb
    · rfl
    · show w.start.getD 0 ≤ w.«end».getD 0
      rw [← hws, ← hwe]
      exact hw.2
    · exact le_refl _
  · -- the word is appended to the current subtitle
    cases hcurval : st.current with
    | none =>
      exfalso
      apply hcond
      rw [hcurval]
      rfl
    | some c =>
      have hstep : SRTProcessor.segStep speakers cl st w =
          { st with current := some { c with text := c.text ++ " " ++ w.word.getD "", «end» := w.«end».getD 0 } } := by
        rw [SRTProcessor.segStep]
        rw [if_neg hcond, hcurval]
      rw [hstep]
      have hcb : c.start ≤ b := hcur c hcurval
      have houtold : outList st = st.subtitles ++ [c] := by simp [outList, hcurval]
      have hctr2 : st.subtitleIndex = st.subtitles.length + 2 := by
        rw [houtold, List.length_append] at hctr
        simpa using hctr
      have hstupd : ({ st with current := some { c with text := c.text ++ " " ++ w.word.getD "", «end» := w.«end».getD 0 } } : SRTProcessor.SegState) =
          ⟨st.subtitles, some { c with text := c.text ++ " " ++ w.word.getD "", «end» := w.«end».getD 0 }, st.subtitles.length + 2⟩ := by
        rw [← hctr2]
      rw [hstupd]
      rw [houtold, List.chain'_append] at hch
      obtain ⟨hch1, -, hch3⟩ := hch
      rw [houtold] at hidx hse
      rw [List.map_append, List.length_append] at hidx
      apply segInv_mk
      · simp only [List.length_singleton] at hidx
        rw [range'_concat_one] at hidx
        exact (List.append_inj' hidx (by simp)).1
      · intro x hx
        exact hse x (List.mem_append.2 (Or.inl hx))
      · exact hch1
      · intro x hx
        have := hch3 x hx c (by simp)
        exact this
      · show c.index = st.subtitles.length + 1
        simp only [List.length_singleton] at hidx
        rw [range'_concat_one] at hidx
        have := (List.append_inj' hidx (by simp)).2
        simpa using this
      · show c.start ≤ w.«end».getD 0
        calc c.start ≤ b := hcb
          _ ≤ startD w := hb
          _ ≤ endD w := hw.2
      · show c.start ≤ startD w
        exact le_trans hcb hb

theorem segLoop_inv (speakers : List SpeakerInfo) (cl : ℚ) :
    ∀ (ws : List TranscriptionWord) (st : SRTProcessor.SegState) (b : ℚ),
    SegInv st b →
    List.Chain' (fun a b => startD a ≤ startD b) ws →
    (∀ w ∈ ws, 0 ≤ startD w ∧ startD w ≤ endD w) →
    (∀ w, ws.head? = some w → b ≤ startD w) →
    ∃ b2, SegInv (ws.foldl (SRTProcessor.segStep speakers cl) st) b2 := by
  intro ws
  induction ws with
  | nil =>
    intro st b hinv _ _ _
    exact ⟨b, hinv⟩
  | cons w ws' ih =>
    intro st b hinv hch hval hhead
    rw [List.foldl_cons]
    apply ih (SRTProcessor.segStep speakers cl st w) (startD w)
    · exact segStep_inv speakers cl st b w hinv
        (hval w (List.mem_cons_self w ws')) (hhead w rfl)
    · exact (List.chain'_cons'.1 hch).2
    · exact fun x hx => hval x (List.mem_cons_of_mem w hx)
    · intro x hx
      exact (List.chain'_cons'.1 hch).1 x hx

theorem segInv_init (b : ℚ) : SegInv ⟨[], none, 1⟩ b := by
  refine ⟨rfl, ?_, ?_, rfl, ?_, fun _ => rfl⟩
  · intro c hc
    simp [outList] at hc
  · simp [outList]
  · intro c hc
    simp at hc

theorem generateSubtitles_eq_outList (words : List TranscriptionWord)
    (speakers : List SpeakerInfo) (cl : ℚ) :
    SRTProcessor.generateSubtitles words speakers cl =
      outList (words.foldl (SRTProcessor.segStep speakers cl) ⟨[], none, 1⟩) := by
  rw [SRTProcessor.generateSubtitles, outList]
  cases h : (words.foldl (SRTProcessor.segStep speakers cl) ⟨[], none, 1⟩).current <;> simp [h]

/-- C6 core: on valid input the produced cue list has contiguous 1-based
indices, nonnegative-length cues, and starts in non-decreasing order. -/
theorem generateSubtitles_wellFormed (words : List TranscriptionWord)
    (speakers : List SpeakerInfo) (cl : ℚ) (hv : ValidWords words) :
    (SRTProcessor.generateSubtitles words speakers cl).map SRTSubtitle.index =
      List.range' 1 (SRTProcessor.generateSubtitles words speakers cl).length ∧
    (∀ c ∈ SRTProcessor.generateSubtitles words speakers cl, c.start ≤ c.«end») ∧
    List.Chain' (fun a b => a.start ≤ b.start)
      (SRTProcessor.generateSubtitles words speakers cl) := by
  obtain ⟨hch, hval⟩ := hv
  obtain ⟨b2, hinv⟩ := segLoop_inv speakers cl words ⟨[], none, 1⟩ 0 (segInv_init 0) hch hval
    (by
      intro w hw
      have : w ∈ words := by
        cases words with
        | nil => simp at hw
        | cons a t =>
          simp only [List.head?_cons, Option.some.injEq] at hw
          rw [← hw]
          exact List.mem_cons_self a t
      exact (hval w this).1)
  rw [generateSubtitles_eq_outList]
  exact ⟨hinv.1, hinv.2.1, hinv.2.2.1⟩

/-! ### Word-tracking (ghost-instrumented) segmenter for the character-limit
analysis. `segStepW` is `segStep` carrying, alongside each subtitle, the
list of word texts that built it; projecting the ghost component away gives
back `segStep` exactly. -/

/-- Segmenter state where every subtitle also carries its word texts. -/
structure SegStateW where
  subtitles : List (SRTSubtitle × List String)
  current : Option (SRTSubtitle × List String)
  subtitleIndex : Nat

/-- `segStep` instrumented with the word texts of each subtitle. -/
def segStepW (speakers : List SpeakerInfo) (characterLimit : ℚ)
    (st : SegStateW) (w : TranscriptionWord) : SegStateW :=
  let wordText := w.word.getD ""
  let wordStart := w.start.getD 0
  let wordEnd := w.«end».getD 0
  let speakerId := w.speaker_id
  if SRTProcessor.shouldStartNew characterLimit (st.current.map Prod.fst) wordStart speakerId then
    { subtitles :=
        match st.current with
        | some p => st.subtitles ++ [p]
        | none => st.subtitles
      current := some (⟨st.subtitleIndex, wordStart, wordEnd, wordText, if truthyStr speakerId then SRTProcessor.speakerMapGet speakers (speakerId.getD "") else none⟩, [wordText])
      subtitleIndex := st.subtitleIndex + 1 }
  else
    match st.current with
    | some p =>
      { st with current := some ({ p.1 with text := p.1.text ++ " " ++ wordText, «end» := wordEnd }, p.2 ++ [wordText]) }
    | none => st

/-- The instrumented segmenter. -/
def generateSubtitlesW (words : List TranscriptionWord) (speakers : List SpeakerInfo)
    (characterLimit : ℚ) : List (SRTSubtitle × List String) :=
  let st := words.foldl (segStepW speakers characterLimit) ⟨[], none, 1⟩
  match st.current with
  | some p => st.subtitles ++ [p]
  | none => st.subtitles

/-- Forgetting the ghost word lists. -/
def projW (st : SegStateW) : SRTProcessor.SegState :=
  ⟨st.subtitles.map Prod.fst, st.current.map Prod.fst, st.subtitleIndex⟩

theorem segStepW_proj (speakers : List SpeakerInfo) (cl : ℚ) (st : SegStateW)
    (w : TranscriptionWord) :
    SRTProcessor.segStep speakers cl (projW st) w = projW (segStepW speakers cl st w) := by
  cases hc : st.current with
  | none =>
    simp [SRTProcessor.segStep, segStepW, projW, hc, SRTProcessor.shouldStartNew]
  | some p =>
    by_cases hcond :
        SRTProcessor.shouldStartNew cl (some p.1) (w.start.getD 0) w.speaker_id = true
    · simp [SRTProcessor.segStep, segStepW, projW, hc, hcond]
    · simp [SRTProcessor.segStep, segStepW, projW, hc, hcond]

theorem foldl_projW (speakers : List SpeakerInfo) (cl : ℚ) :
    ∀ (ws : List TranscriptionWord) (st : SegStateW),
    ws.foldl (SRTProcessor.segStep speakers cl) (projW st) =
      projW (ws.foldl (segStepW speakers cl) st) := by
  intro ws
  induction ws with
  | nil => intro st; rfl
  | cons w ws' ih =>
    intro st
    rw [List.foldl_cons, List.foldl_cons, segStepW_proj]
    exact ih (segStepW speakers cl st w)

theorem generateSubtitlesW_proj (words : List TranscriptionWord)
    (speakers : List SpeakerInfo) (cl : ℚ) :
    (generateSubtitlesW words speakers cl).map Prod.fst =
      SRTProcessor.generateSubtitles words speakers cl := by
  rw [SRTProcessor.generateSubtitles, generateSubtitlesW]
  have hinit : (⟨[], none, 1⟩ : SRTProcessor.SegState) = projW ⟨[], none, 1⟩ := rfl
  rw [hinit, foldl_projW]
  cases hc : (words.foldl (segStepW speakers cl) ⟨[], none, 1⟩).current with
  | none => simp [projW, hc]
  | some p => simp [projW, hc]

/-- The single-space join the segmenter's text accumulation produces. -/
def joinWords : List String → String
  | [] => ""
  | h :: t => t.foldl (fun acc x => acc ++ " " ++ x) h

theorem joinWords_concat {l : List String} (x : String) (h : l ≠ []) :
    joinWords (l ++ [x]) = joinWords l ++ " " ++ x := by
  cases l with
  | nil => exact absurd rfl h
  | cons a t =>
    show joinWords (a :: (t ++ [x])) = _
    rw [joinWords, joinWords, List.foldl_append]
    rfl

/-- Invariant of one subtitle-with-words pair: the text is the single-space
join of the words, and if the cue holds at least two words then the text
before its last word fitted within the character limit when that word was
appended. -/
def PairInv (cl : ℚ) (p : SRTSubtitle × List String) : Prop :=
  p.1.text = joinWords p.2 ∧ p.2 ≠ [] ∧
  (2 ≤ p.2.length → ((joinWords p.2.dropLast).length : ℚ) ≤ cl)

/-- Loop invariant: all closed and open subtitles satisfy `PairInv`. -/
def WInv (cl : ℚ) (st : SegStateW) : Prop :=
  (∀ p ∈ st.subtitles, PairInv cl p) ∧ (∀ p, st.current = some p → PairInv cl p)

theorem segStepW_inv (speakers : List SpeakerInfo) (cl : ℚ) (st : SegStateW)
    (w : TranscriptionWord) (hinv : WInv cl st) :
    WInv cl (segStepW speakers cl st w) := by
  obtain ⟨hsubs, hcur⟩ := hinv
  by_cases hcond : SRTProcessor.shouldStartNew cl (st.current.map Prod.fst)
      (w.start.getD 0) w.speaker_id = true
  · rw [segStepW, if_pos hcond]
    constructor
    · intro p hp
      cases hc : st.current with
      | none =>
        rw [hc] at hp
        exact hsubs p hp
      | some q =>
        rw [hc] at hp
        rcases List.mem_append.1 hp with h | h
        · exact hsubs p h
        · rcases List.mem_singleton.1 h with rfl
          exact hcur p hc
    · intro p hp
      simp only [Option.some.injEq] at hp
      subst hp
      refine ⟨rfl, by simp, ?_⟩
      intro hlen
      simp at hlen
  · rw [segStepW, if_neg hcond]
    cases hc : st.current with
    | none => exact ⟨hsubs, fun p hp => hcur p (hc ▸ hp)⟩
    | some q =>
      constructor
      · exact hsubs
      · intro p hp
        simp only [Option.some.injEq] at hp
        subst hp
        obtain ⟨hq1, hq2, -⟩ := hcur q hc
        have hlen_le : ((q.1.text.length : ℚ)) ≤ cl := by
          rw [hc] at hcond
          simp only [SRTProcessor.shouldStartNew, Option.map_some', Bool.or_eq_true,
            decide_eq_true_eq, not_or] at hcond
          exact le_of_not_lt hcond.2
        refine ⟨?_, by simp, ?_⟩
        · show q.1.text ++ " " ++ w.word.getD "" = joinWords (q.2 ++ [w.word.getD ""])
          rw [joinWords_concat _ hq2, hq1]
        · intro _
          show ((joinWords (q.2 ++ [w.word.getD ""]).dropLast).length : ℚ) ≤ cl
          rw [List.dropLast_concat, ← hq1]
          exact hlen_le

theorem segLoopW_inv (speakers : List SpeakerInfo) (cl : ℚ) :
    ∀ (ws : List TranscriptionWord) (st : SegStateW), WInv cl st →
    WInv cl (ws.foldl (segStepW speakers cl) st) := by
  intro ws
  induction ws with
  | nil => intro st h; exact h
  | cons w ws' ih =>
    intro st h
    rw [List.foldl_cons]
    exact ih _ (segStepW_inv speakers cl st w h)

theorem generateSubtitlesW_inv (words : List TranscriptionWord)
    (speakers : List SpeakerInfo) (cl : ℚ) :
    ∀ p ∈ generateSubtitlesW words speakers cl, PairInv cl p := by
  have hinit : WInv cl ⟨[], none, 1⟩ := ⟨by simp, by simp⟩
  have hfin := segLoopW_inv speakers cl words ⟨[], none, 1⟩ hinit
  obtain ⟨hsubs, hcur⟩ := hfin
  intro p hp
  rw [generateSubtitlesW] at hp
  cases hc : (words.foldl (segStepW speakers cl) ⟨[], none, 1⟩).current with
  | none =>
    rw [hc] at hp
    exact hsubs p hp
  | some q =>
    rw [hc] at hp
    rcases List.mem_append.1 hp with h | h
    · exact hsubs p h
    · rcases List.mem_singleton.1 h with rfl
      exact hcur p hc

/-! ### Concrete evaluations of the time codec -/

theorem formatTimeL_eval (s : ℚ) (h m sec ms : ℤ)
    (hh : ⌊s / 3600⌋ = h) (hm : ⌊(jsMod s 3600) / 60⌋ = m)
    (hs : ⌊jsMod s 60⌋ = sec) (hms : ⌊(jsMod s 1) * 1000⌋ = ms) :
    SRTProcessor.formatTimeL s =
      padZeros 2 (intDigits h) ++ ':' :: padZeros 2 (intDigits m)
        ++ ':' :: padZeros 2 (intDigits sec) ++ ',' :: padZeros 3 (intDigits ms) := by
  rw [SRTProcessor.formatTimeL, hh, hm, hs, hms]

theorem fmt_0 : SRTProcessor.formatTimeL 0 = "00:00:00,000".data := by
  rw [formatTimeL_eval 0 0 0 0 0 (by norm_num) (by norm_num [jsMod, jsTrunc])
    (by norm_num [jsMod, jsTrunc]) (by norm_num [jsMod, jsTrunc])]
  decide

theorem fmt_half : SRTProcessor.formatTimeL (1/2) = "00:00:00,500".data := by
  rw [formatTimeL_eval (1/2) 0 0 0 500 (by norm_num) (by norm_num [jsMod, jsTrunc])
    (by norm_num [jsMod, jsTrunc]) (by norm_num [jsMod, jsTrunc])]
  decide

theorem fmt_1 : SRTProcessor.formatTimeL 1 = "00:00:01,000".data := by
  rw [formatTimeL_eval 1 0 0 1 0 (by norm_num) (by norm_num [jsMod, jsTrunc])
    (by norm_num [jsMod, jsTrunc]) (by norm_num [jsMod, jsTrunc])]
  decide

theorem fmt_2 : SRTProcessor.formatTimeL 2 = "00:00:02,000".data := by
  rw [formatTimeL_eval 2 0 0 2 0 (by norm_num) (by norm_num [jsMod, jsTrunc])
    (by norm_num [jsMod, jsTrunc]) (by norm_num [jsMod, jsTrunc])]
  decide

theorem fmt_fifth : SRTProcessor.formatTimeL (1/5) = "00:00:00,200".data := by
  rw [formatTimeL_eval (1/5) 0 0 0 200 (by norm_num) (by norm_num [jsMod, jsTrunc])
    (by norm_num [jsMod, jsTrunc]) (by norm_num [jsMod, jsTrunc])]
  decide

theorem fmt_3 : SRTProcessor.formatTimeL 3 = "00:00:03,000".data := by
  rw [formatTimeL_eval 3 0 0 3 0 (by norm_num) (by norm_num [jsMod, jsTrunc])
    (by norm_num [jsMod, jsTrunc]) (by norm_num [jsMod, jsTrunc])]
  decide

theorem fmt_165 : SRTProcessor.formatTimeL (16/5) = "00:00:03,200".data := by
  rw [formatTimeL_eval (16/5) 0 0 3 200 (by norm_num) (by norm_num [jsMod, jsTrunc])
    (by norm_num [jsMod, jsTrunc]) (by norm_num [jsMod, jsTrunc])]
  decide

theorem fmt_100h : SRTProcessor.formatTimeL 360000 = "100:00:00,000".data := by
  rw [formatTimeL_eval 360000 100 0 0 0 (by norm_num) (by norm_num [jsMod, jsTrunc])
    (by norm_num [jsMod, jsTrunc]) (by norm_num [jsMod, jsTrunc])]
  decide

theorem fmt_100h1 : SRTProcessor.formatTimeL 360001 = "100:00:01,000".data := by
  rw [formatTimeL_eval 360001 100 0 1 0 (by norm_num) (by norm_num [jsMod, jsTrunc])
    (by norm_num [jsMod, jsTrunc]) (by norm_num [jsMod, jsTrunc])]
  decide

/-! ### Concrete serializations -/

theorem ser_cex2 : SRTProcessor.convertToSRTFormat
    [⟨1, 0, 1, "a", none⟩, ⟨2, 360000, 360001, "b", none⟩] =
    "1\n00:00:00,000 --> 00:00:01,000\na\n\n2\n100:00:00,000 --> 100:00:01,000\nb\n" := by
  rw [SRTProcessor.convertToSRTFormat]
  simp only [List.flatMap_cons, List.flatMap_nil, SRTProcessor.subLines, fmt_0, fmt_1,
    fmt_100h, fmt_100h1]
  decide

theorem ser_cex9 : SRTProcessor.convertToSRTFormat
    [⟨1, 0, 1, "a\n\nb", none⟩, ⟨2, 1, 2, "c", none⟩] =
    "1\n00:00:00,000 --> 00:00:01,000\na\n\nb\n\n2\n00:00:01,000 --> 00:00:02,000\nc\n" := by
  rw [SRTProcessor.convertToSRTFormat]
  simp only [List.flatMap_cons, List.flatMap_nil, SRTProcessor.subLines, fmt_0, fmt_1, fmt_2]
  decide

theorem ser_scenA : SRTProcessor.convertToSRTFormat [⟨1, 0, 1, "hi there", none⟩] =
    "1\n00:00:00,000 --> 00:00:01,000\nhi there\n" := by
  rw [SRTProcessor.convertToSRTFormat]
  simp only [List.flatMap_cons, List.flatMap_nil, SRTProcessor.subLines, fmt_0, fmt_1]
  decide

theorem ser_scenC : SRTProcessor.convertToSRTFormat
    [⟨1, 0, 1/5, "a", none⟩, ⟨2, 3, 16/5, "b", none⟩] =
    "1\n00:00:00,000 --> 00:00:00,200\na\n\n2\n00:00:03,000 --> 00:00:03,200\nb\n" := by
  rw [SRTProcessor.convertToSRTFormat]
  simp only [List.flatMap_cons, List.flatMap_nil, SRTProcessor.subLines, fmt_0, fmt_fifth,
    fmt_3, fmt_165]
  decide

theorem ser_c8 : SRTProcessor.convertToSRTFormat [⟨1, 0, 1, "x", none⟩] =
    "1\n00:00:00,000 --> 00:00:01,000\nx\n" := by
  rw [SRTProcessor.convertToSRTFormat]
  simp only [List.flatMap_cons, List.flatMap_nil, SRTProcessor.subLines, fmt_0, fmt_1]
  decide

/-! ### Claims -/

/-- C1: Speaker continuity. The claim says a word whose speaker id equals the
current cue's speaker id must not trigger a new cue, and that Scenario A's
two `spk1` words yield one cue `"hi there"`. The code instead compares the
word's speaker id against the cue's stored display name
(`currentSubtitle.speaker !== speakerId`), so with the speaker table mapping
`spk1` to the name `Joey`, two consecutive `spk1` words produce two cues:
this theorem evaluates the segmenter at that failing input. -/
theorem C1_speaker_comparison_splits :
    SRTProcessor.generateSubtitles
      [⟨some "hi", some 0, some (1/2), some "spk1"⟩,
       ⟨some "there", some (1/2), some 1, some "spk1"⟩]
      [⟨"spk1", some "Joey"⟩] 50 =
      [⟨1, 0, 1/2, "hi", some "Joey"⟩, ⟨2, 1/2, 1, "there", some "Joey"⟩] := rfl

/-- C2 (amended): for cue sequences whose rendered text lines are single
non-blank lines and whose times lie in `[0, 100h)`, the textual stitching
pass agrees byte-for-byte with the structured stitcher, which closes every
gap (`cue[i].end = cue[i+1].start` for `i < n-1`), leaves the last cue
(hence its end) unchanged, and is a no-op on sequences of length 0 or 1. -/
theorem C2_gap_closure (cues : List SRTSubtitle) (h : ∀ c ∈ cues, WfCue c) :
    SRTProcessor.adjustTiming (SRTProcessor.convertToSRTFormat cues) =
      SRTProcessor.convertToSRTFormat (stitchCues cues) ∧
    (∀ (i : Nat) (h1 : i < (stitchCues cues).length) (h2 : i + 1 < cues.length),
      ((stitchCues cues).get ⟨i, h1⟩).«end» = (cues.get ⟨i + 1, h2⟩).start) ∧
    (stitchCues cues).getLast? = cues.getLast? ∧
    (cues.length ≤ 1 → stitchCues cues = cues) :=
  ⟨adjustTiming_convert cues h,
   fun i h1 h2 => stitchCues_gap cues i h1 h2,
   stitchCues_getLast? cues,
   fun hl => stitchCues_short hl⟩

/-- C2 witness: the gap-closure theorem applied to a concrete two-cue
sequence. -/
theorem C2_gap_closure_witness :
    SRTProcessor.adjustTiming (SRTProcessor.convertToSRTFormat
      [⟨1, 0, 1, "a", none⟩, ⟨2, 1, 2, "b", none⟩]) =
      SRTProcessor.convertToSRTFormat (stitchCues
        [⟨1, 0, 1, "a", none⟩, ⟨2, 1, 2, "b", none⟩]) :=
  (C2_gap_closure [⟨1, 0, 1, "a", none⟩, ⟨2, 1, 2, "b", none⟩] (by decide)).1

/-- C2 counterexample: for a cue starting at 360000 s (100 hours) the timing
regex no longer matches the second block (three-digit hours), so the
stitched output keeps only one cue whose end is `00:00:00,000`: gap closure
and last-cue preservation fail for this sequence, refuting the claim's
unrestricted "for every cue sequence". -/
theorem C2_counterexample :
    (srtBlocksOf (SRTProcessor.adjustTiming (SRTProcessor.convertToSRTFormat
      [⟨1, 0, 1, "a", none⟩, ⟨2, 360000, 360001, "b", none⟩]))).length = 1 ∧
    ([⟨1, 0, 1, "a", none⟩, (⟨2, 360000, 360001, "b", none⟩ : SRTSubtitle)]).length = 2 ∧
    (srtBlocksOf (SRTProcessor.adjustTiming (SRTProcessor.convertToSRTFormat
      [⟨1, 0, 1, "a", none⟩, ⟨2, 360000, 360001, "b", none⟩]))).map SrtBlock.endT =
      ["00:00:00,000".data] ∧
    SRTProcessor.formatTimeL 360001 ≠ "00:00:00,000".data := by
  rw [ser_cex2, fmt_100h1]
  refine ⟨by decide, by decide, by decide, by decide⟩

/-- C9 (amended): for cue sequences whose rendered text lines are single
non-blank lines and whose times lie in `[0, 100h)`, stitching rewrites only
the `end` field: the structured stitcher it coincides with preserves the
number of cues and every cue's `index`, `start`, `text` and `speaker`. -/
theorem C9_stitch_frame (cues : List SRTSubtitle) (h : ∀ c ∈ cues, WfCue c) :
    (stitchCues cues).length = cues.length ∧
    (∀ (i : Nat) (h1 : i < (stitchCues cues).length) (h2 : i < cues.length),
      ((stitchCues cues).get ⟨i, h1⟩).index = (cues.get ⟨i, h2⟩).index ∧
      ((stitchCues cues).get ⟨i, h1⟩).start = (cues.get ⟨i, h2⟩).start ∧
      ((stitchCues cues).get ⟨i, h1⟩).text = (cues.get ⟨i, h2⟩).text ∧
      ((stitchCues cues).get ⟨i, h1⟩).speaker = (cues.get ⟨i, h2⟩).speaker) ∧
    SRTProcessor.adjustTiming (SRTProcessor.convertToSRTFormat cues) =
      SRTProcessor.convertToSRTFormat (stitchCues cues) :=
  ⟨stitchCues_length cues,
   fun i h1 h2 => stitchCues_fields cues i h1 h2,
   adjustTiming_convert cues h⟩

/-- C9 witness: the frame theorem applied to a concrete two-cue sequence. -/
theorem C9_stitch_frame_witness :
    (stitchCues [⟨1, 0, 2, "x", none⟩, ⟨2, 5, 6, "y", some "N"⟩]).length =
      ([⟨1, 0, 2, "x", none⟩, (⟨2, 5, 6, "y", some "N"⟩ : SRTSubtitle)]).length :=
  (C9_stitch_frame [⟨1, 0, 2, "x", none⟩, ⟨2, 5, 6, "y", some "N"⟩] (by decide)).1

/-- C9 counterexample: a cue whose text contains a blank line is truncated
by the textual stitcher (its lines after the internal blank line are
dropped), so the stitched output does not preserve the cue's text, refuting
the claim's unrestricted "for every cue sequence". -/
theorem C9_counterexample :
    (srtBlocksOf (SRTProcessor.adjustTiming (SRTProcessor.convertToSRTFormat
      [⟨1, 0, 1, "a\n\nb", none⟩, ⟨2, 1, 2, "c", none⟩]))).map SrtBlock.txt =
      [["a".data], ["c".data]] ∧
    trimC ("a\n\nb".data) ≠ "a".data := by
  rw [ser_cex9]
  refine ⟨by decide, by decide⟩

/-- C3: the character limit is a trigger threshold, not a cap. The split
condition compares the accumulated text length against `charLimit` before a
word is appended, so for every positive `charLimit` and every produced cue
of at least two words, the cue text without its last word and separating
space has length at most `charLimit`, while the final text may exceed the
limit by at most one word plus the space (and the text is exactly the
single-space join of the cue's words, with no truncation). -/
theorem C3_charLimit_trigger (ws : List TranscriptionWord) (sp : List SpeakerInfo)
    (cl : ℚ) (hcl : 0 < cl) :
    ((generateSubtitlesW ws sp cl).map Prod.fst = SRTProcessor.generateSubtitles ws sp cl) ∧
    (∀ p ∈ generateSubtitlesW ws sp cl,
      p.1.text = joinWords p.2 ∧
      (2 ≤ p.2.length → ((joinWords p.2.dropLast).length : ℚ) ≤ cl) ∧
      (2 ≤ p.2.length → ∃ lw, p.2.getLast? = some lw ∧
        (p.1.text.length : ℚ) ≤ cl + 1 + (lw.length : ℚ))) := by
  refine ⟨generateSubtitlesW_proj ws sp cl, ?_⟩
  intro p hp
  obtain ⟨h1, h2, h3⟩ := generateSubtitlesW_inv ws sp cl p hp
  refine ⟨h1, h3, ?_⟩
  intro hlen
  have hlast := List.dropLast_append_getLast h2
  refine ⟨p.2.getLast h2, List.getLast?_eq_getLast p.2 h2, ?_⟩
  have hdl : p.2.dropLast ≠ [] := by
    have := List.length_dropLast p.2
    intro hnil
    rw [hnil] at this
    simp at this
    omega
  have hjoin := congrArg joinWords hlast
  rw [joinWords_concat _ hdl] at hjoin
  have htext : p.1.text = joinWords p.2.dropLast ++ " " ++ p.2.getLast h2 := by
    rw [h1, ← hjoin]
  have hlen2 : (p.1.text.length : ℚ) =
      ((joinWords p.2.dropLast).length : ℚ) + 1 + ((p.2.getLast h2).length : ℚ) := by
    rw [htext, String.length_append, String.length_append]
    have hsp1 : (" " : String).length = 1 := rfl
    rw [hsp1]
    push_cast
    ring
  rw [hlen2]
  have := h3 hlen
  linarith

/-- C3 witness: the trigger theorem applied at a concrete word list and
limit. -/
theorem C3_charLimit_trigger_witness :
    (generateSubtitlesW
      [⟨some "ab", some 0, some 1, none⟩, ⟨some "cd", some 1, some 2, none⟩] [] 3).map Prod.fst =
      SRTProcessor.generateSubtitles
        [⟨some "ab", some 0, some 1, none⟩, ⟨some "cd", some 1, some 2, none⟩] [] 3 :=
  (C3_charLimit_trigger
    [⟨some "ab", some 0, some 1, none⟩, ⟨some "cd", some 1, some 2, none⟩] [] 3
    (by norm_num)).1

/-- C5: the gap split fires, when no speaker or character-limit condition
does, exactly when the word's start exceeds the current cue's end by more
than 2.0 seconds; Scenario C's words split into two cues and, after the
stitching pass, cue 1 ends at `00:00:03,000` (cue 2's start) while cue 2
still ends at `00:00:03,200`. -/
theorem C5_gap_threshold :
    (∀ (cl : ℚ) (cur : SRTSubtitle) (w : TranscriptionWord),
      (truthyStr w.speaker_id && !(cur.speaker == w.speaker_id)) = false →
      ((cur.text.length : ℚ) > cl → False) →
      (SRTProcessor.shouldStartNew cl (some cur) (startD w) w.speaker_id = true ↔
        startD w - cur.«end» > 2)) ∧
    SRTProcessor.generateSubtitles
      [⟨some "a", some 0, some (1/5), none⟩, ⟨some "b", some 3, some (16/5), none⟩] [] 50 =
      [⟨1, 0, 1/5, "a", none⟩, ⟨2, 3, 16/5, "b", none⟩] ∧
    SRTProcessor.adjustTiming (SRTProcessor.convertToSRTFormat
      [⟨1, 0, 1/5, "a", none⟩, ⟨2, 3, 16/5, "b", none⟩]) =
      "1\n00:00:00,000 --> 00:00:03,000\na\n\n2\n00:00:03,000 --> 00:00:03,200\nb\n" := by
  refine ⟨?_, ?_, ?_⟩
  · intro cl cur w hsp hlen
    have hdl : decide ((cur.text.length : ℚ) > cl) = false := decide_eq_false hlen
    simp only [SRTProcessor.shouldStartNew, hsp, hdl, Bool.false_or, Bool.or_false,
      decide_eq_true_eq]
  · have hcond : SRTProcessor.shouldStartNew 50 (some ⟨1, 0, 1/5, "a", none⟩) 3 none = true := by
      have hl : ("a" : String).length = 1 := rfl
      simp only [SRTProcessor.shouldStartNew, truthyStr, hl, Bool.false_and, Bool.false_or,
        Bool.or_eq_true, decide_eq_true_eq]
      left
      norm_num
    have h1 : SRTProcessor.segStep [] 50 ⟨[], none, 1⟩ ⟨some "a", some 0, some (1/5), none⟩ =
        ⟨[], some ⟨1, 0, 1/5, "a", none⟩, 2⟩ := rfl
    have h2 : SRTProcessor.segStep [] 50 ⟨[], some ⟨1, 0, 1/5, "a", none⟩, 2⟩
        ⟨some "b", some 3, some (16/5), none⟩ =
        ⟨[⟨1, 0, 1/5, "a", none⟩], some ⟨2, 3, 16/5, "b", none⟩, 3⟩ := by
      rw [SRTProcessor.segStep]
      simp only [Option.getD_some]
      rw [hcond]
      rfl
    rw [SRTProcessor.generateSubtitles]
    simp only [List.foldl_cons, List.foldl_nil, h1, h2]
    rfl
  · rw [ser_scenC]
    decide

/-- C5 witness: the trigger equivalence applied at a concrete cue and word
(gap 2.8 s, no speaker, text within the limit). -/
theorem C5_gap_threshold_witness :
    SRTProcessor.shouldStartNew 50 (some ⟨1, 0, 1/5, "a", none⟩)
      (startD ⟨some "b", some 3, some (16/5), none⟩)
      (⟨some "b", some 3, some (16/5), none⟩ : TranscriptionWord).speaker_id = true ↔
    startD ⟨some "b", some 3, some (16/5), none⟩ - (1/5 : ℚ) > 2 :=
  C5_gap_threshold.1 50 ⟨1, 0, 1/5, "a", none⟩ ⟨some "b", some 3, some (16/5), none⟩
    (by decide)
    (by
      have hl : ("a" : String).length = 1 := rfl
      rw [hl]
      norm_num)

/-- C6: on valid input (words in non-decreasing start order with
`0 ≤ start ≤ end`) the segmenter's cue list has indices exactly
`1, 2, ..., n`, satisfies `start ≤ end` on every cue, and is ordered by
non-decreasing start times. -/
theorem C6_output_invariants (ws : List TranscriptionWord) (sp : List SpeakerInfo)
    (cl : ℚ) (hv : ValidWords ws) :
    (SRTProcessor.generateSubtitles ws sp cl).map SRTSubtitle.index =
      List.range' 1 (SRTProcessor.generateSubtitles ws sp cl).length ∧
    (∀ c ∈ SRTProcessor.generateSubtitles ws sp cl, c.start ≤ c.«end») ∧
    List.Chain' (fun a b => a.start ≤ b.start) (SRTProcessor.generateSubtitles ws sp cl) :=
  generateSubtitles_wellFormed ws sp cl hv

/-- C6 witness: the invariants applied to a concrete valid word list. -/
theorem C6_output_invariants_witness :
    (SRTProcessor.generateSubtitles
      [⟨some "hi", some 0, some (1/2), none⟩, ⟨some "there", some (1/2), some 1, none⟩] [] 30).map
        SRTSubtitle.index =
      List.range' 1 (SRTProcessor.generateSubtitles
        [⟨some "hi", some 0, some (1/2), none⟩, ⟨some "there", some (1/2), some 1, none⟩]
        [] 30).length :=
  (C6_output_invariants
    [⟨some "hi", some 0, some (1/2), none⟩, ⟨some "there", some (1/2), some 1, none⟩] [] 30
    (by
      constructor
      · simp only [List.chain'_cons, List.chain'_singleton, and_true]
        norm_num [startD]
      · intro w hw
        rcases List.mem_cons.1 hw with rfl | hw2
        · constructor <;> norm_num [startD, endD]
        · rcases List.mem_singleton.1 hw2 with rfl
          constructor <;> norm_num [startD, endD])).1

/-! ### Serializer output shape -/

theorem mk_append (a b : Line) : String.mk a ++ String.mk b = String.mk (a ++ b) := rfl

theorem joinNl_subLines (c : SRTSubtitle) :
    joinNl (SRTProcessor.subLines c) =
      natDigits c.index ++ '\n' ::
        ((SRTProcessor.formatTimeL c.start ++ arrowSep ++ SRTProcessor.formatTimeL c.«end») ++
          '\n' :: (SRTProcessor.subTextLine c ++ ['\n'])) := rfl

theorem joinNl_subLines_append (c : SRTSubtitle) (M : List Line) (h : M ≠ []) :
    joinNl (SRTProcessor.subLines c ++ M) =
      natDigits c.index ++ '\n' ::
        ((SRTProcessor.formatTimeL c.start ++ arrowSep ++ SRTProcessor.formatTimeL c.«end») ++
          '\n' :: (SRTProcessor.subTextLine c ++ '\n' :: '\n' :: joinNl M)) := by
  cases M with
  | nil => exact absurd rfl h
  | cons m ms => rfl

/-- C4 (amended): the serializer emits, per cue and in order, the decimal
index line, the `format(start) --> format(end)` timing line, one text line
(the trimmed text, speaker-prefixed exactly when the cue's `speaker` field
is a truthy, nonempty name), and a blank separator line; the blocks are
joined by single newlines, so the final cue's blank line yields exactly one
trailing newline. The empty cue list serializes to the empty string, and
Scenario A produces `"1\n00:00:00,000 --> 00:00:01,000\nhi there\n"`. -/
theorem C4_serializer_shape :
    SRTProcessor.convertToSRTFormat [] = "" ∧
    (∀ (c : SRTSubtitle) (cs : List SRTSubtitle),
      SRTProcessor.convertToSRTFormat (c :: cs) =
        String.mk (natDigits c.index) ++ "\n" ++ SRTProcessor.formatTime c.start ++ " --> " ++
        SRTProcessor.formatTime c.«end» ++ "\n" ++ String.mk (SRTProcessor.subTextLine c) ++
        "\n" ++ (if cs.isEmpty then "" else "\n" ++ SRTProcessor.convertToSRTFormat cs)) ∧
    (∀ c : SRTSubtitle, SRTProcessor.subTextLine c =
      if truthyStr c.speaker then
        '[' :: (c.speaker.getD "").data ++ ']' :: ' ' :: trimC c.text.data
      else trimC c.text.data) ∧
    SRTProcessor.convertToSRTFormat [⟨1, 0, 1, "hi there", none⟩] =
      "1\n00:00:00,000 --> 00:00:01,000\nhi there\n" := by
  refine ⟨rfl, ?_, fun c => rfl, ser_scenA⟩
  intro c cs
  cases cs with
  | nil =>
    rw [SRTProcessor.convertToSRTFormat, List.flatMap_cons, List.flatMap_nil, List.append_nil,
      joinNl_subLines]
    simp only [List.isEmpty_nil, if_true]
    show _ = String.mk (natDigits c.index) ++ String.mk ['\n'] ++
      String.mk (SRTProcessor.formatTimeL c.start) ++ String.mk arrowSep ++
      String.mk (SRTProcessor.formatTimeL c.«end») ++ String.mk ['\n'] ++
      String.mk (SRTProcessor.subTextLine c) ++ String.mk ['\n'] ++ String.mk []
    simp only [mk_append]
    congr 1
    simp [List.append_assoc]
  | cons c2 cs' =>
    have hne : (c2 :: cs').flatMap SRTProcessor.subLines ≠ [] := by
      rw [List.flatMap_cons, subLines_cons_append]
      simp
    rw [SRTProcessor.convertToSRTFormat, List.flatMap_cons,
      joinNl_subLines_append c _ hne]
    simp only [List.isEmpty_cons, if_false]
    show _ = String.mk (natDigits c.index) ++ String.mk ['\n'] ++
      String.mk (SRTProcessor.formatTimeL c.start) ++ String.mk arrowSep ++
      String.mk (SRTProcessor.formatTimeL c.«end») ++ String.mk ['\n'] ++
      String.mk (SRTProcessor.subTextLine c) ++ String.mk ['\n'] ++
      (String.mk ['\n'] ++ String.mk (joinNl ((c2 :: cs').flatMap SRTProcessor.subLines)))
    simp only [mk_append]
    congr 1
    simp [List.append_assoc]

/-- C4 counterexample: Scenario A's serialized output ends in a single
newline, not the blank-line pair `"...hi there\n\n"` the claim states, and a
cue whose `speaker` field is set to the empty string gets no speaker prefix
even though a speaker id is present. -/
theorem C4_counterexample :
    SRTProcessor.convertToSRTFormat [⟨1, 0, 1, "hi there", none⟩] ≠
      "1\n00:00:00,000 --> 00:00:01,000\nhi there\n\n" ∧
    SRTProcessor.subTextLine ⟨1, 0, 1, "x", some ""⟩ = "x".data := by
  rw [ser_scenA]
  exact ⟨by decide, by decide⟩

/-- C7 (amended): for every exact rational `0 ≤ s < 360000` (i.e. with the
hour field below 100, where the two-digit-hour timestamp pattern applies),
`parse(format(s))` is `s` truncated to whole milliseconds, and `parse`
fails (models the thrown `MalformedTimestamp`) exactly when the input
contains no `dd:dd:dd,ddd` substring. -/
theorem C7_codec_roundtrip :
    (∀ s : ℚ, 0 ≤ s → s < 360000 →
      SRTProcessor.parseTime (SRTProcessor.formatTime s) = some ((⌊1000 * s⌋ : ℚ) / 1000)) ∧
    (∀ t : String, SRTProcessor.parseTime t = none ↔ first12 t.data = none) := by
  refine ⟨fun s h0 h1 => parseTime_formatTime s h0 h1, fun t => ?_⟩
  rw [SRTProcessor.parseTime]
  simp [Option.map_eq_none']

/-- C7 witness: the round trip applied at `s = 1/2`. -/
theorem C7_codec_roundtrip_witness :
    SRTProcessor.parseTime (SRTProcessor.formatTime (1/2)) =
      some ((⌊(1000 : ℚ) * (1/2)⌋ : ℚ) / 1000) :=
  C7_codec_roundtrip.1 (1/2) (by norm_num) (by norm_num)

/-- C7 counterexample: at `s = 360000` (100 hours) the hour field is three
digits, the parse regex matches at offset 1 and returns 0, so
`parse(format(s))` is not `s` truncated to milliseconds; moreover a string
that is not a well-formed timestamp but merely contains one embedded does
not fail — both refuting the claim as stated. -/
theorem C7_counterexample :
    SRTProcessor.parseTime (SRTProcessor.formatTime 360000) = some 0 ∧
    (0 : ℚ) ≠ (⌊(1000 : ℚ) * 360000⌋ : ℚ) / 1000 ∧
    SRTProcessor.parseTime "ab00:11:22,333cd" = some (682333 / 1000) := by
  refine ⟨?_, by norm_num, ?_⟩
  · have hdata : (SRTProcessor.formatTime 360000).data = SRTProcessor.formatTimeL 360000 := rfl
    rw [SRTProcessor.parseTime, hdata, fmt_100h]
    have hfirst : first12 ("100:00:00,000".data) = some ("00:00:00,000".data) := by decide
    rw [hfirst, Option.map_some']
    have hp2 : parseIntD ['0', '0'] = 0 := by decide
    have hp3 : parseIntD ['0', '0', '0'] = 0 := by decide
    show some ((parseIntD ['0', '0'] : ℚ) * 3600 + (parseIntD ['0', '0'] : ℚ) * 60
      + (parseIntD ['0', '0'] : ℚ) + (parseIntD ['0', '0', '0'] : ℚ) / 1000) = some 0
    rw [hp2, hp3]
    norm_num
  · rw [SRTProcessor.parseTime]
    have hfirst : first12 (("ab00:11:22,333cd" : String).data) = some ("00:11:22,333".data) := by
      decide
    rw [hfirst, Option.map_some']
    have hp2 : parseIntD ['0', '0'] = 0 := by decide
    have hp11 : parseIntD ['1', '1'] = 11 := by decide
    have hp22 : parseIntD ['2', '2'] = 22 := by decide
    have hp333 : parseIntD ['3', '3', '3'] = 333 := by decide
    show some ((parseIntD ['0', '0'] : ℚ) * 3600 + (parseIntD ['1', '1'] : ℚ) * 60
      + (parseIntD ['2', '2'] : ℚ) + (parseIntD ['3', '3', '3'] : ℚ) / 1000) =
      some (682333 / 1000)
    rw [hp2, hp11, hp22, hp333]
    norm_num

/-- C8 (amended): a missing or non-array word list makes `generateSRT` fail
with the `Invalid transcription data: missing words array` error, but once
a word array is present the engine never fails: a word missing its `start`
or `end` is given the fabricated default 0 rather than raising an error
(shown by the word with both fields missing becoming a `0 → 0` cue). -/
theorem C8_invalid_input :
    (∀ (sp : Option (List SpeakerInfo)) (cl : ℚ),
      SRTProcessor.generateSRT ⟨none, sp⟩ cl =
        Except.error "Invalid transcription data: missing words array") ∧
    (∀ (ws : List TranscriptionWord) (sp : Option (List SpeakerInfo)) (cl : ℚ),
      ∃ out, SRTProcessor.generateSRT ⟨some ws, sp⟩ cl = Except.ok out) ∧
    SRTProcessor.generateSubtitles [⟨some "x", none, none, none⟩] [] 50 =
      [⟨1, 0, 0, "x", none⟩] :=
  ⟨fun sp cl => rfl, fun ws sp cl => ⟨_, rfl⟩, rfl⟩

/-- C8 counterexample: a word list whose single word is missing `start`
succeeds with a fabricated zero start time instead of failing fast, as the
claim demands. -/
theorem C8_counterexample :
    SRTProcessor.generateSRT ⟨some [⟨some "x", none, some 1, none⟩], none⟩ 50 =
      Except.ok "1\n00:00:00,000 --> 00:00:01,000\nx\n" := by
  show Except.ok (SRTProcessor.convertToSRTFormat
    (SRTProcessor.generateSubtitles [⟨some "x", none, some 1, none⟩] [] 50)) = _
  rw [show SRTProcessor.generateSubtitles [⟨some "x", none, some 1, none⟩] [] 50 =
    [⟨1, 0, 1, "x", none⟩] from rfl, ser_c8]

/-- C10 (amended): the timing-adjustment pass never raises an error. When
an index line's successor contains `-->` but not two timestamps matching
the pattern, the whole block — index, timing and text lines — is silently
dropped; when the successor lacks `-->` entirely, only the index line is
skipped and scanning resumes at the next line (which may re-interpret later
lines as new blocks). Either way the output can shrink. -/
theorem C10_malformed_blocks :
    (∀ (f : Nat) (line tl : Line) (rest : List Line),
      isIdxLine (trimC line) = true → hasSub arrowPat tl = true → matchTiming tl = none →
      SRTProcessor.adjustAux (f + 1) (line :: tl :: rest) =
        SRTProcessor.adjustAux f (rest.dropWhile (fun l => !(trimC l).isEmpty))) ∧
    (∀ (f : Nat) (line tl : Line) (rest : List Line),
      isIdxLine (trimC line) = true → hasSub arrowPat tl = false →
      SRTProcessor.adjustAux (f + 1) (line :: tl :: rest) =
        SRTProcessor.adjustAux f (tl :: rest)) ∧
    SRTProcessor.adjustTiming "1\nbad --> timing\nhello\n" = "" := by
  refine ⟨?_, ?_, by decide⟩
  · intro f line tl rest hidx harrow hmatch
    simp only [SRTProcessor.adjustAux, hidx, harrow, hmatch, if_true]
  · intro f line tl rest hidx harrow
    simp only [SRTProcessor.adjustAux, hidx, harrow, if_true, Bool.false_eq_true, if_false]

/-- C10 witness: the block-drop equation applied to a concrete malformed
block. -/
theorem C10_malformed_blocks_witness :
    SRTProcessor.adjustAux 1 ("1".data :: "bad --> timing".data :: []) =
      SRTProcessor.adjustAux 0 (List.dropWhile (fun l => !(trimC l).isEmpty) []) :=
  C10_malformed_blocks.1 0 "1".data "bad --> timing".data [] (by decide) (by decide) (by decide)

/-- C10 counterexample: when the line after the index line has no `-->` at
all, the block's remaining lines are *not* all dropped — they are rescanned,
and here lines 3-5 of the malformed block survive as a new cue — refuting
the claim that such a block is omitted wholesale. -/
theorem C10_counterexample :
    SRTProcessor.adjustTiming "1\njunk\n2\n00:00:00,000 --> 00:00:01,000\nhello\n" =
      "2\n00:00:00,000 --> 00:00:01,000\nhello\n" ∧
    ("2\n00:00:00,000 --> 00:00:01,000\nhello\n" : String) ≠ "" :=
  ⟨by decide, by decide⟩
